import Mathlib

/-!
# isubata: the channel cache and the unread derivation

A shallow embedding of the cache part of `webapp/go/src/isubata/app.go`
(`Cacher[T]`, `ChannelCacher`, `initCannelCacher`) and of the handlers that
use it (`addMessage`, `fetchUnread`, `getInitialize`, `getInitializeIsu3`).

Modelling decisions:

* Every method of `Cacher` takes the mutex for its whole body, so a call is one
  atomic step: a function from the state before to the state after.
* A Go `map[string]...` is an `AList` (an association list without duplicate
  keys). The order of the list stands for the unspecified iteration order.
* `*ChannelInfo` is a reference into an explicit heap of records. `none` is the
  nil pointer. Dereferencing nil (or a reference with no record) is a run-time
  panic, rendered as the result `none` of the function that does it.
* `time.Time` is the number of nanoseconds since the zero instant `time.Time{}`,
  the clock reading `time.Now()` is a parameter `now`, and the clock never
  reads before the zero instant. Clock overflow is not modelled.
* `int32` and `int64` are `Int`; the one place where 32-bit arithmetic is done
  (`MessageCnt++`) wraps explicitly.
* The database is outside the model: the result of each statement is a
  parameter of the handler that runs it.
-/

namespace Isubata

/-! ## Basic types -/

/-- Go `error` values. -/
abbrev Error := String

/-- Instants of `time.Time`: nanoseconds since the zero instant. -/
abbrev Time := Nat

/-- Values of `time.Duration`: signed nanoseconds. -/
abbrev Duration := Int

/-- Method `Time.IsZero`: the instant is the zero instant. -/
def Time.IsZero (t : Time) : Bool := t == 0

/-- Method `Time.Before`: `t.Before(u)`. -/
def Time.Before (t u : Time) : Bool := decide (t < u)

/-- Method `Time.Add`: `t.Add(d)`. The only call, in `Set`, has `d > 0`. -/
def Time.Add (t : Time) (d : Duration) : Time := ((t : Int) + d).toNat

/-- Two's complement wrap of an integer into the range of `int32`. -/
def wrapInt32 (x : Int) : Int := (x + 2 ^ 31) % 2 ^ 32 - 2 ^ 31

/-- The Go conversion `string(i)` of an integer: the UTF-8 text of the code
point `i`, and U+FFFD when `i` is not a valid code point. -/
def stringOfInt64 (i : Int) : String :=
  if (0 ≤ i ∧ i < 0xD800) ∨ (0xE000 ≤ i ∧ i ≤ 0x10FFFF) then
    String.singleton (Char.ofNat i.toNat)
  else
    String.singleton (Char.ofNat 0xFFFD)

/-- Record `ChannelInfo` (a row of table `channel`). -/
structure ChannelInfo where
  ID : Int
  Name : String
  Description : String
  MessageCnt : Int
  UpdatedAt : Time
  CreatedAt : Time
deriving DecidableEq, Repr

/-- Record `HaveRead` (a row of table `haveread`). -/
structure HaveRead where
  UserID : Int
  ChannelID : Int
  MessageID : Int
  UpdatedAt : Time
  CreatedAt : Time
deriving DecidableEq, Repr

/-! ## The heap of channel records -/

/-- A pointer `*ChannelInfo`: `none` is nil, `some i` is the `i`-th allocated
record. -/
abbrev Ref := Option Nat

/-- The records allocated so far, in allocation order. -/
structure Heap where
  recs : List ChannelInfo
deriving DecidableEq, Repr

/-- Read through a pointer; `none` when the pointer is nil or has no record. -/
def Heap.deref (h : Heap) (p : Ref) : Option ChannelInfo :=
  match p with
  | none => none
  | some i => h.recs[i]?

/-- Overwrite the record a pointer points to. -/
def Heap.store (h : Heap) (p : Ref) (v : ChannelInfo) : Heap :=
  match p with
  | none => h
  | some i => { recs := h.recs.set i v }

/-- Allocate a new record and return the pointer to it. -/
def Heap.alloc (h : Heap) (v : ChannelInfo) : Heap × Ref :=
  ({ recs := h.recs ++ [v] }, some h.recs.length)

/-- Allocate one record per row, in order (what `db.Select` does when it fills
a `[]*ChannelInfo`). -/
def Heap.allocAll (h : Heap) : List ChannelInfo → Heap × List Ref
  | [] => (h, [])
  | v :: rest =>
    let (h1, p) := h.alloc v
    let (h2, ps) := Heap.allocAll h1 rest
    (h2, p :: ps)

/-! ## `Cacher[T]` -/

/-- The anonymous struct stored in the map of a `Cacher`. -/
structure Entry (T : Type) where
  Value : T
  Expired : Time
deriving DecidableEq, Repr

/-- Type `Cacher[T]`; the mutex is not part of the state. -/
structure Cacher (T : Type) where
  Cache : AList (fun _ : String => Entry T)

instance {T : Type} [DecidableEq T] : DecidableEq (Cacher T) := fun a b =>
  decidable_of_iff (a.Cache.entries = b.Cache.entries)
    ⟨fun h => by cases a; cases b; simp_all [AList.ext_iff], fun h => by rw [h]⟩

/-- Method `Cacher.Get` at clock reading `now`. -/
def Cacher.Get {T : Type} [Inhabited T] (c : Cacher T) (key : String) (now : Time) : T × Bool :=
  match c.Cache.lookup key with
  | some cache =>
    if Time.IsZero cache.Expired || Time.Before now cache.Expired then
      (cache.Value, true)
    else
      (default, false)
  | none => (default, false)

/-- Method `Cacher.GetAll`. -/
def Cacher.GetAll {T : Type} (c : Cacher T) : List T :=
  c.Cache.entries.map (fun v => v.2.Value)

/-- Method `Cacher.Set` at clock reading `now`. -/
def Cacher.Set {T : Type} (c : Cacher T) (key : String) (value : T) (ttl : Duration)
    (now : Time) : Cacher T :=
  let expired : Time := if ttl > 0 then Time.Add now ttl else 0
  { Cache := c.Cache.insert key { Value := value, Expired := expired } }

/-- Method `Cacher.Delete`. -/
def Cacher.Delete {T : Type} (c : Cacher T) (key : String) : Cacher T :=
  { Cache := c.Cache.erase key }

/-- Method `Cacher.Flush`. -/
def Cacher.Flush {T : Type} (_c : Cacher T) : Cacher T :=
  { Cache := ∅ }

/-! ## `ChannelCacher` -/

/-- Type `ChannelCacher`: it embeds a `Cacher[*ChannelInfo]` and adds one
method. -/
abbrev ChannelCacher := Cacher Ref

/-- Function `initCannelCacher`. -/
def initCannelCacher : ChannelCacher :=
  { Cache := ∅ }

/-- The state a `ChannelCacher` lives in: the heap its values point into and
the global variable `channelCacher`. -/
structure World where
  heap : Heap
  channelCacher : ChannelCacher
deriving DecidableEq

/-- Method `ChannelCacher.IncrementMessage` on the global `channelCacher`. The
map is not written: the entry is copied out, and the record its `Value` points
to is updated in the heap. -/
def ChannelCacher.IncrementMessage (w : World) (key : String) : Option World :=
  match w.channelCacher.Cache.lookup key with
  | none => some w
  | some cache =>
    match w.heap.deref cache.Value with
    | none => none
    | some info =>
      some { w with
        heap := w.heap.store cache.Value
          { info with MessageCnt := wrapInt32 (info.MessageCnt + 1) } }

/-- A call of one of the cache methods that handlers run concurrently with
message posting. -/
inductive CacheCall where
  | IncrementMessage (key : String)
  | Get (key : String) (now : Time)
  | GetAll
deriving DecidableEq, Repr

/-- The state after one call. `Get` and `GetAll` only read. -/
def CacheCall.run (w : World) : CacheCall → Option World
  | .IncrementMessage key => ChannelCacher.IncrementMessage w key
  | .Get _ _ => some w
  | .GetAll => some w

/-- The state after a sequence of calls, one after the other. -/
def runCalls : World → List CacheCall → Option World
  | w, [] => some w
  | w, call :: rest =>
    match call.run w with
    | none => none
    | some w1 => runCalls w1 rest

/-- The record read through the entry stored under `key`. -/
def cachedRecord (w : World) (key : String) : Option ChannelInfo :=
  match w.channelCacher.Cache.lookup key with
  | none => none
  | some cache => w.heap.deref cache.Value

/-- The message count read through the entry stored under `key`. -/
def cachedCount (w : World) (key : String) : Option Int :=
  (cachedRecord w key).map (fun info => info.MessageCnt)

/-! ## Calls on a generic `Cacher` -/

/-- A call of one of the methods of `Cacher[T]`. -/
inductive CacherCall (T : Type) where
  | Get (key : String) (now : Time)
  | GetAll
  | Set (key : String) (value : T) (ttl : Duration) (now : Time)
  | Delete (key : String)
  | Flush

/-- The cache after one call. -/
def CacherCall.run {T : Type} : CacherCall T → Cacher T → Cacher T
  | .Get _ _, c => c
  | .GetAll, c => c
  | .Set key value ttl now, c => c.Set key value ttl now
  | .Delete key, c => c.Delete key
  | .Flush, c => c.Flush

/-- The call writes the map slot of `key`: a `Set` or `Delete` of that key, or
a `Flush`. -/
def CacherCall.writesKey {T : Type} (key : String) : CacherCall T → Bool
  | .Get _ _ => false
  | .GetAll => false
  | .Set k _ _ _ => k == key
  | .Delete k => k == key
  | .Flush => true

/-- The cache after a sequence of calls. -/
def Cacher.runCalls {T : Type} (c : Cacher T) (calls : List (CacherCall T)) : Cacher T :=
  calls.foldl (fun acc call => call.run acc) c

/-! ## Message ingestion -/

/-- The `sql.Result` of a successful `db.Exec`: what `LastInsertId()` will
return. -/
structure SqlResult where
  LastInsertId : Int × Option Error
deriving DecidableEq, Repr

/-- What a call of `addMessage` leaves behind: the state, the cache calls it
made (a ghost trace), and the pair it returns. -/
structure AddMessageResult where
  world : World
  calls : List CacheCall
  ret : Int × Option Error
deriving DecidableEq

/-- Function `addMessage`; `dbExec` is the result of the `INSERT`. -/
def addMessage (w : World) (dbExec : Except Error SqlResult) (channelID _userID : Int)
    (_content : String) : Option AddMessageResult :=
  match dbExec with
  | .error err => some { world := w, calls := [], ret := (0, some err) }
  | .ok res =>
    match ChannelCacher.IncrementMessage w (stringOfInt64 channelID) with
    | none => none
    | some w1 =>
      some { world := w1,
             calls := [CacheCall.IncrementMessage (stringOfInt64 channelID)],
             ret := res.LastInsertId }

/-! ## The unread derivation -/

/-- One element of the JSON array `fetchUnread` answers with. -/
structure Unread where
  channel_id : Int
  unread : Int
deriving DecidableEq, Repr

/-- The HTTP answers of the handlers modelled here. -/
inductive Response where
  | NoContent (code : Nat)
  | Text (code : Nat) (body : String)
  | JSON (code : Nat) (body : List Unread)
deriving DecidableEq, Repr

/-- The `for _, channel := range channels` loop of `fetchUnread`. `resp` is the
answer built so far and `queries` the count queries issued so far, as pairs
(channel id, last read id). The outer `none` is the nil dereference of
`channelMap[channel.ID]` for an id that is not in the map. -/
def fetchUnreadLoop (channelMap : AList (fun _ : Int => ChannelInfo))
    (haveUnreadMap : AList (fun _ : Int => HaveRead))
    (count : Int → Int → Except Error Int) :
    List ChannelInfo → List Unread → List (Int × Int) →
      Option (Except Error (List Unread) × List (Int × Int))
  | [], resp, queries => some (.ok resp, queries)
  | channel :: rest, resp, queries =>
    let lastID : Int :=
      match haveUnreadMap.lookup channel.ID with
      | some haveUnread => haveUnread.MessageID
      | none => 0
    if lastID > 0 then
      match count channel.ID lastID with
      | .error err => some (.error err, queries ++ [(channel.ID, lastID)])
      | .ok cnt =>
        fetchUnreadLoop channelMap haveUnreadMap count rest
          (resp ++ [{ channel_id := channel.ID, unread := cnt }])
          (queries ++ [(channel.ID, lastID)])
    else
      match channelMap.lookup channel.ID with
      | none => none
      | some cached =>
        fetchUnreadLoop channelMap haveUnreadMap count rest
          (resp ++ [{ channel_id := channel.ID, unread := cached.MessageCnt }]) queries

/-- Handler `fetchUnread`. `userID` is the session user, `channels` the records
behind the pointers that `queryChannels()` returns, `queryHaveReads` the result
of reading the user's `haveread` rows, and `count` the result of the
`SELECT COUNT(*) ... WHERE channel_id = ? AND ? < id` query. The second
component of the result is the list of count queries issued. -/
def fetchUnread (userID : Int) (channels : List ChannelInfo)
    (queryHaveReads : Int → Except Error (List HaveRead))
    (count : Int → Int → Except Error Int) :
    Option (Except Error Response × List (Int × Int)) :=
  if userID = 0 then
    some (.ok (.NoContent 403), [])
  else
    let channelMap : AList (fun _ : Int => ChannelInfo) :=
      channels.foldl (fun m channel => m.insert channel.ID channel) ∅
    match queryHaveReads userID with
    | .error err => some (.error err, [])
    | .ok haveUnreads =>
      let haveUnreadMap : AList (fun _ : Int => HaveRead) :=
        haveUnreads.foldl (fun m haveUnread => m.insert haveUnread.ChannelID haveUnread) ∅
      match fetchUnreadLoop channelMap haveUnreadMap count channels [] [] with
      | none => none
      | some (.error err, queries) => some (.error err, queries)
      | some (.ok resp, queries) => some (.ok (.JSON 200 resp), queries)

/-- The `lastID` that the loop of `fetchUnread` computes for a channel id: the
`MessageID` of the row found in `haveUnreadMap`, and 0 when there is none. -/
def lastReadID (haveUnreadMap : AList (fun _ : Int => HaveRead)) (id : Int) : Int :=
  match haveUnreadMap.lookup id with
  | some haveUnread => haveUnread.MessageID
  | none => 0

/-- What the loop of `fetchUnread` puts in the answer for a channel id, read
off one element `u` of the answer: the result of the count query when the
`lastID` of the channel is positive, the `MessageCnt` of the record in
`channelMap` otherwise. -/
def UnreadRule (channelMap : AList (fun _ : Int => ChannelInfo))
    (haveUnreadMap : AList (fun _ : Int => HaveRead))
    (count : Int → Int → Except Error Int) (u : Unread) : Prop :=
  (0 < lastReadID haveUnreadMap u.channel_id →
    count u.channel_id (lastReadID haveUnreadMap u.channel_id) = .ok u.unread) ∧
  (¬ 0 < lastReadID haveUnreadMap u.channel_id →
    (channelMap.lookup u.channel_id).map (fun cached => cached.MessageCnt) = some u.unread)

/-! ## Reset of the channel cache -/

/-- The loop `for _, channel := range channels { channelCacher.Set(string(channel.ID), channel, -1) }`. -/
def setChannels (h : Heap) (now : Time) : List Ref → ChannelCacher → Option ChannelCacher
  | [], c => some c
  | channel :: rest, c =>
    match h.deref channel with
    | none => none
    | some info => setChannels h now rest (c.Set (stringOfInt64 info.ID) channel (-1) now)

/-- The statements that `getInitializeIsu3` (lines 279-295) and `getInitialize`
(lines 248-264) share word for word: replace the global cache by a fresh one,
run the two `UPDATE`s, select the channels and `Set` each of them. The results
of the three database statements are parameters. The answer is the state left
behind and the error returned, if any. -/
def resetChannelCacher (w : World) (exec1 exec2 : Except Error Unit)
    (select : Except Error (List ChannelInfo)) (now : Time) : Option (World × Option Error) :=
  let w1 : World := { w with channelCacher := initCannelCacher }
  match exec1 with
  | .error err => some (w1, some err)
  | .ok _ =>
    match exec2 with
    | .error err => some (w1, some err)
    | .ok _ =>
      match select with
      | .error err => some (w1, some err)
      | .ok rows =>
        match setChannels (w1.heap.allocAll rows).1 now (w1.heap.allocAll rows).2
            w1.channelCacher with
        | none => none
        | some c => some ({ heap := (w1.heap.allocAll rows).1, channelCacher := c }, none)

/-- Handler `getInitializeIsu3`. -/
def getInitializeIsu3 (w : World) (exec1 exec2 : Except Error Unit)
    (select : Except Error (List ChannelInfo)) (now : Time) :
    Option (World × Except Error Response) :=
  match resetChannelCacher w exec1 exec2 select now with
  | none => none
  | some (w1, some err) => some (w1, .error err)
  | some (w1, none) => some (w1, .ok (.Text 204 ""))

/-- Handler `getInitialize`. `before` is the outcome of everything up to line
246 (`none`: a `MustExec` panicked; an error: `MkdirAll`, the image `SELECT` or
`WriteFile` failed), `isu3` the outcome of the HTTP request to the other host
(building the request from the constant URL does not fail). -/
def getInitialize (w : World) (before : Option (Except Error Unit))
    (exec1 exec2 : Except Error Unit) (select : Except Error (List ChannelInfo)) (now : Time)
    (isu3 : Except Error Unit) : Option (World × Except Error Response) :=
  match before with
  | none => none
  | some (.error err) => some (w, .error err)
  | some (.ok _) =>
    match resetChannelCacher w exec1 exec2 select now with
    | none => none
    | some (w1, some err) => some (w1, .error err)
    | some (w1, none) =>
      match isu3 with
      | .error err => some (w1, .error err)
      | .ok _ => some (w1, .ok (.Text 204 ""))

/-- The cache key of a channel record, as every call site computes it:
`string(channel.ID)`. -/
def cacheKey (r : ChannelInfo) : String := stringOfInt64 r.ID

/-! ## Concrete states -/

/-- A channel record with the given id and message count. -/
def channelInfo (id cnt : Int) : ChannelInfo :=
  { ID := id, Name := "general", Description := "", MessageCnt := cnt,
    UpdatedAt := 0, CreatedAt := 0 }

/-- Two channels, each cached under its own key with its own record:
channel 1 with 5 messages and channel 2 with 7. -/
def twoChannels : World :=
  { heap := { recs := [channelInfo 1 5, channelInfo 2 7] },
    channelCacher :=
      (initCannelCacher.Set (stringOfInt64 1) (some 0) (-1) 0).Set (stringOfInt64 2) (some 1) (-1) 0 }

/-- One record with 5 messages, stored under the two keys `a` and `b`. -/
def sharedRecord : World :=
  { heap := { recs := [channelInfo 1 5] },
    channelCacher := (initCannelCacher.Set "a" (some 0) (-1) 0).Set "b" (some 0) (-1) 0 }

/-! ## History pages -/

/-- The ways `getHistory` can end: `ErrBadReqeust`, a plain `return err` (after
`ensureLogin` gave no user, or after a failed message query), or the rendered
page with its `MaxPage`, `Page` and the `OFFSET` of the message query. -/
inductive HistoryAnswer where
  | BadRequest
  | Return (err : Option Error)
  | Render (chID maxPage page offset : Int)
deriving DecidableEq, Repr

/-- The `maxPage` of `getHistory` for a count `cnt`, with `N = 20`:
`int64(cnt+N-1) / N`, where the sum and the difference are `int32` operations
(each wraps) and the quotient is the `int64` division, which truncates toward
zero; a quotient of 0 is replaced by 1. -/
def maxPageOf (cnt : Int) : Int :=
  let maxPage : Int := Int.tdiv (wrapInt32 (wrapInt32 (cnt + 20) - 1)) 20
  if maxPage = 0 then 1 else maxPage

/-- The `cnt` of `getHistory`: the `MessageCnt` behind the pointer that
`channelCacher.Get(string(chID))` finds, and 0 when it finds nothing. -/
def historyCnt (w : World) (chID : Int) (now : Time) : Option Int :=
  match w.channelCacher.Get (stringOfInt64 chID) now with
  | (channel, true) => (w.heap.deref channel).map (fun info => info.MessageCnt)
  | (_, false) => some 0

/-- Handler `getHistory` up to the rendering. `chIDParam` is the result of
parsing the path parameter, `user` and `loginErr` what `ensureLogin` returns,
`pageParam` the result of parsing the query parameter `page` (`none` when it
is empty) and `messages` the outcome of the message query. The product
`(page-1)*N` is below `2^31` at that point, so only its conversion to `int32`
is written. -/
def getHistory (w : World) (chIDParam : Except Error Int) (user : Option Int)
    (loginErr : Option Error) (pageParam : Option (Except Error Int)) (now : Time)
    (messages : Except Error Unit) : Option HistoryAnswer :=
  match chIDParam with
  | .error _ => some .BadRequest
  | .ok chID =>
    if chID ≤ 0 then some .BadRequest
    else
      match user with
      | none => some (.Return loginErr)
      | some _ =>
        let parsed : Option Int :=
          match pageParam with
          | none => some 1
          | some (.error _) => none
          | some (.ok page) => if page < 1 then none else some page
        match parsed with
        | none => some .BadRequest
        | some page =>
          match historyCnt w chID now with
          | none => none
          | some cnt =>
            if page > maxPageOf cnt then some .BadRequest
            else
              match messages with
              | .error err => some (.Return (some err))
              | .ok _ =>
                some (.Render chID (maxPageOf cnt) page (wrapInt32 ((page - 1) * 20)))

/-- Every record stored in the cache (the record behind the pointer of any
entry) has a `MessageCnt` that is not negative. -/
def CountsNonneg (w : World) : Prop :=
  ∀ j cache info, w.channelCacher.Cache.lookup j = some cache →
    w.heap.deref cache.Value = some info → 0 ≤ info.MessageCnt

/-- The integer is a Unicode scalar value: a code point that is not a
surrogate. These are the integers that `string(i)` does not replace by U+FFFD. -/
def IsScalarValue (i : Int) : Prop :=
  (0 ≤ i ∧ i < 0xD800) ∨ (0xE000 ≤ i ∧ i ≤ 0x10FFFF)

/-! ## More concrete states -/

/-- One channel, cached under the key of id 1, whose count is the largest
`int32`. -/
def fullChannel : World :=
  { heap := { recs := [channelInfo 1 2147483647] },
    channelCacher := initCannelCacher.Set (stringOfInt64 1) (some 0) (-1) 0 }

/-- The empty state: no record and no cache entry. -/
def emptyWorld : World :=
  { heap := { recs := [] }, channelCacher := initCannelCacher }

/-- Channel 3 with 41 messages, cached under the key of id 3. -/
def busyChannel : World :=
  { heap := { recs := [channelInfo 3 41] },
    channelCacher := initCannelCacher.Set (stringOfInt64 3) (some 0) (-1) 0 }

/-! ## Lemmas on the heap -/

theorem Heap.deref_store_same (h : Heap) (p : Ref) (old v : ChannelInfo)
    (hp : h.deref p = some old) : (h.store p v).deref p = some v := by
  cases p with
  | none => simp [Heap.deref] at hp
  | some i =>
    simp only [Heap.deref] at hp
    have hlt : i < h.recs.length := by
      by_contra hge
      rw [List.getElem?_eq_none (by omega)] at hp
      cases hp
    simp [Heap.deref, Heap.store, hlt]

theorem Heap.deref_store_ne (h : Heap) (p q : Ref) (v : ChannelInfo) (hne : q ≠ p) :
    (h.store p v).deref q = h.deref q := by
  cases p with
  | none => rfl
  | some i =>
    cases q with
    | none => rfl
    | some j =>
      have hij : i ≠ j := fun e => hne (by rw [e])
      simp [Heap.deref, Heap.store, List.getElem?_set_ne hij]

theorem Time.add_cast (t0 : Nat) (ttl : Int) (h : 0 < ttl) :
    ((Time.Add t0 ttl : Nat) : Int) = (t0 : Int) + ttl := by
  unfold Time.Add
  omega

theorem wrapInt32_succ (x : Int) (h1 : -(2 ^ 31) ≤ x) (h2 : x + 1 ≤ 2 ^ 31 - 1) :
    wrapInt32 (x + 1) = x + 1 := by
  unfold wrapInt32
  omega

/-! ## Incrementing the message count -/

theorem incrementMessage_present (w : World) (k : String) (cache : Entry Ref)
    (info : ChannelInfo) (hk : w.channelCacher.Cache.lookup k = some cache)
    (hinfo : w.heap.deref cache.Value = some info) :
    ChannelCacher.IncrementMessage w k =
      some { w with
        heap := w.heap.store cache.Value
          { info with MessageCnt := wrapInt32 (info.MessageCnt + 1) } } := by
  simp [ChannelCacher.IncrementMessage, hk, hinfo]

theorem incrementMessage_absent (w : World) (k : String)
    (hk : w.channelCacher.Cache.lookup k = none) :
    ChannelCacher.IncrementMessage w k = some w := by
  simp [ChannelCacher.IncrementMessage, hk]

/-- Along a run that increments only `k`, the record behind `k` gains one
message per increment and no other pointer is written. -/
theorem runCalls_increments (c : ChannelCacher) (k : String) (cache : Entry Ref)
    (hk : c.Cache.lookup k = some cache) :
    ∀ (calls : List CacheCall) (h : Heap) (info : ChannelInfo),
      h.deref cache.Value = some info →
      -(2 ^ 31) ≤ info.MessageCnt →
      info.MessageCnt + (calls.count (CacheCall.IncrementMessage k) : Int) ≤ 2 ^ 31 - 1 →
      (∀ j, CacheCall.IncrementMessage j ∈ calls → j = k) →
      ∃ h1 : Heap,
        runCalls { heap := h, channelCacher := c } calls
            = some { heap := h1, channelCacher := c } ∧
        h1.deref cache.Value =
          some { info with
            MessageCnt := info.MessageCnt + (calls.count (CacheCall.IncrementMessage k) : Int) } ∧
        ∀ q : Ref, q ≠ cache.Value → h1.deref q = h.deref q := by
  intro calls
  induction calls with
  | nil =>
    intro h info hinfo _ _ _
    exact ⟨h, rfl, by simpa using hinfo, fun _ _ => rfl⟩
  | cons call rest ih =>
    intro h info hinfo hlo hhi honly
    have honly1 : ∀ j, CacheCall.IncrementMessage j ∈ rest → j = k :=
      fun j hj => honly j (List.mem_cons_of_mem _ hj)
    cases call with
    | IncrementMessage j =>
      have hj : j = k := honly j (List.mem_cons_self _ _)
      subst hj
      have hcount : (List.count (CacheCall.IncrementMessage j)
          (CacheCall.IncrementMessage j :: rest) : Int)
          = (List.count (CacheCall.IncrementMessage j) rest : Int) + 1 := by
        simp
      rw [hcount] at hhi
      have hnn : (0 : Int) ≤ (List.count (CacheCall.IncrementMessage j) rest : Int) :=
        Int.ofNat_nonneg _
      have hwrap : wrapInt32 (info.MessageCnt + 1) = info.MessageCnt + 1 :=
        wrapInt32_succ _ hlo (by omega)
      have hstep := incrementMessage_present { heap := h, channelCacher := c } j cache info hk hinfo
      rw [hwrap] at hstep
      obtain ⟨h1, hrun, hrec, hother⟩ :=
        ih (h.store cache.Value { info with MessageCnt := info.MessageCnt + 1 })
          { info with MessageCnt := info.MessageCnt + 1 }
          (Heap.deref_store_same h cache.Value info _ hinfo)
          (by show -(2 ^ 31) ≤ info.MessageCnt + 1; omega)
          (by show info.MessageCnt + 1 + _ ≤ _; omega) honly1
      refine ⟨h1, ?_, ?_, ?_⟩
      · simp only [runCalls, CacheCall.run, hstep]
        exact hrun
      · rw [hrec, hcount]
        simp only [Option.some.injEq, ChannelInfo.mk.injEq, true_and, and_true]
        omega
      · intro q hq
        rw [hother q hq, Heap.deref_store_ne h cache.Value q _ hq]
    | Get key now =>
      have hcount : List.count (CacheCall.IncrementMessage k) (CacheCall.Get key now :: rest)
          = List.count (CacheCall.IncrementMessage k) rest := by
        simp
      rw [hcount] at hhi ⊢
      obtain ⟨h1, hrun, hrec, hother⟩ := ih h info hinfo hlo hhi honly1
      exact ⟨h1, by simpa [runCalls, CacheCall.run] using hrun, hrec, hother⟩
    | GetAll =>
      have hcount : List.count (CacheCall.IncrementMessage k) (CacheCall.GetAll :: rest)
          = List.count (CacheCall.IncrementMessage k) rest := by
        simp
      rw [hcount] at hhi ⊢
      obtain ⟨h1, hrun, hrec, hother⟩ := ih h info hinfo hlo hhi honly1
      exact ⟨h1, by simpa [runCalls, CacheCall.run] using hrun, hrec, hother⟩

/-- Sharing: when one record is stored under two keys, as in `sharedRecord`,
it is one record; an increment through either key is read through both. No
`Set` of the handlers stores a pointer a second time. -/
theorem sharedRecord_increment_read_under_both_keys :
    cachedCount sharedRecord "a" = some 5 ∧
    cachedCount sharedRecord "b" = some 5 ∧
    (runCalls sharedRecord [CacheCall.IncrementMessage "a"]).bind
      (fun w1 => cachedCount w1 "a") = some 6 ∧
    (runCalls sharedRecord [CacheCall.IncrementMessage "a"]).bind
      (fun w1 => cachedCount w1 "b") = some 6 := by
  decide

/-- C1: in a state where `k` is present with count `C` (an `int32`, so
`C >= -2^31`) and `C + N` fits `int32`, any sequence of `Get`, `GetAll` and
`IncrementMessage(k)` calls with exactly `N` increments runs to the end;
afterwards the map holds the entries it held (same pointer and same expiry
under every key), the record under `k` has count `C + N` and its other fields
as they were, the record behind every other pointer is as it was, and so the
record read under every key that stores another pointer is as it was. -/
theorem incrementMessage_count_after_calls (w : World) (k : String) (cache : Entry Ref)
    (info : ChannelInfo) (calls : List CacheCall) (N : Nat)
    (hk : w.channelCacher.Cache.lookup k = some cache)
    (hinfo : w.heap.deref cache.Value = some info)
    (hlo : -(2 ^ 31) ≤ info.MessageCnt)
    (hhi : info.MessageCnt + (N : Int) ≤ 2 ^ 31 - 1)
    (honly : ∀ j, CacheCall.IncrementMessage j ∈ calls → j = k)
    (hN : calls.count (CacheCall.IncrementMessage k) = N) :
    ∃ w1 : World, runCalls w calls = some w1 ∧
      w1.channelCacher = w.channelCacher ∧
      cachedRecord w1 k = some { info with MessageCnt := info.MessageCnt + (N : Int) } ∧
      cachedCount w1 k = some (info.MessageCnt + (N : Int)) ∧
      (∀ q : Ref, q ≠ cache.Value → w1.heap.deref q = w.heap.deref q) ∧
      (∀ j other, w.channelCacher.Cache.lookup j = some other →
        other.Value ≠ cache.Value → cachedRecord w1 j = cachedRecord w j) := by
  subst hN
  obtain ⟨h1, hrun, hrec, hother⟩ :=
    runCalls_increments w.channelCacher k cache hk calls w.heap info hinfo hlo hhi honly
  have hrec1 : cachedRecord { heap := h1, channelCacher := w.channelCacher } k
      = some { info with
          MessageCnt := info.MessageCnt + (calls.count (CacheCall.IncrementMessage k) : Int) } := by
    simp only [cachedRecord, hk]
    exact hrec
  refine ⟨{ heap := h1, channelCacher := w.channelCacher }, hrun, rfl, hrec1, ?_, hother, ?_⟩
  · simp only [cachedCount, hrec1, Option.map_some']
  · intro j other hl hne
    simp only [cachedRecord, hl]
    exact hother other.Value hne

/-- C1 (witness): channel 1 of `twoChannels` has count 5; after two increments
mixed with a `Get` and a `GetAll` it has count 7, and channel 2 still has its
record. -/
theorem incrementMessage_count_after_calls_witness :
    ∃ w1 : World,
      runCalls twoChannels
        [CacheCall.Get (stringOfInt64 1) 3, CacheCall.IncrementMessage (stringOfInt64 1),
          CacheCall.GetAll, CacheCall.IncrementMessage (stringOfInt64 1)] = some w1 ∧
      w1.channelCacher = twoChannels.channelCacher ∧
      cachedRecord w1 (stringOfInt64 1) = some (channelInfo 1 7) ∧
      cachedCount w1 (stringOfInt64 1) = some 7 ∧
      (∀ q : Ref, q ≠ some 0 → w1.heap.deref q = twoChannels.heap.deref q) ∧
      (∀ j other, twoChannels.channelCacher.Cache.lookup j = some other →
        other.Value ≠ some 0 → cachedRecord w1 j = cachedRecord twoChannels j) :=
  incrementMessage_count_after_calls twoChannels (stringOfInt64 1)
    { Value := some 0, Expired := 0 } (channelInfo 1 5) _ 2
    (by decide) (by decide) (by decide) (by decide)
    (by intro j hj; simpa using hj)
    (by decide)

/-- C2: `IncrementMessage` of a key that is not in the map returns normally and
the state afterwards is the state before: the key is still absent (`Get`
reports not found at any time, `GetAll` has the same length) and the record
read under every key is the same. -/
theorem incrementMessage_absent_key_noop (w : World) (k : String)
    (hk : w.channelCacher.Cache.lookup k = none) :
    ∃ w1 : World, ChannelCacher.IncrementMessage w k = some w1 ∧
      w1 = w ∧
      w1.channelCacher.Cache.lookup k = none ∧
      (∀ now, (w1.channelCacher.Get k now).2 = false) ∧
      w1.channelCacher.GetAll.length = w.channelCacher.GetAll.length ∧
      ∀ j, cachedRecord w1 j = cachedRecord w j := by
  refine ⟨w, incrementMessage_absent w k hk, rfl, hk, ?_, rfl, fun _ => rfl⟩
  intro now
  simp [Cacher.Get, hk]

/-- C2 (witness): the key `zz` is not cached in `twoChannels`. -/
theorem incrementMessage_absent_key_noop_witness :
    ∃ w1 : World, ChannelCacher.IncrementMessage twoChannels "zz" = some w1 ∧
      w1 = twoChannels ∧
      w1.channelCacher.Cache.lookup "zz" = none ∧
      (∀ now, (w1.channelCacher.Get "zz" now).2 = false) ∧
      w1.channelCacher.GetAll.length = twoChannels.channelCacher.GetAll.length ∧
      ∀ j, cachedRecord w1 j = cachedRecord twoChannels j :=
  incrementMessage_absent_key_noop twoChannels "zz" (by decide)

/-! ## Message ingestion -/

/-- C3: when the insert fails, `addMessage` returns `(0, err)` with the error
of the insert, makes no cache call and leaves the whole state as it was. When
the insert succeeds and the key of the channel is present with a count `C`
(an `int32`) below the largest `int32`, `addMessage` calls `IncrementMessage` once and
returns what `LastInsertId()` returns; afterwards the map holds the entries it
held, the record of the channel has count `C + 1` and its other fields as they
were, the record behind every other pointer is as it was, and so the record
read under every key that stores another pointer is as it was. -/
theorem addMessage_insert_outcomes (w : World) (channelID userID : Int) (content : String) :
    (∀ err : Error,
      addMessage w (.error err) channelID userID content =
        some { world := w, calls := [], ret := (0, some err) }) ∧
    (∀ (res : SqlResult) (cache : Entry Ref) (info : ChannelInfo),
      w.channelCacher.Cache.lookup (stringOfInt64 channelID) = some cache →
      w.heap.deref cache.Value = some info →
      -(2 ^ 31) ≤ info.MessageCnt →
      info.MessageCnt < 2 ^ 31 - 1 →
      ∃ r : AddMessageResult,
        addMessage w (.ok res) channelID userID content = some r ∧
        r.calls = [CacheCall.IncrementMessage (stringOfInt64 channelID)] ∧
        r.ret = res.LastInsertId ∧
        r.world.channelCacher = w.channelCacher ∧
        cachedRecord r.world (stringOfInt64 channelID) =
          some { info with MessageCnt := info.MessageCnt + 1 } ∧
        cachedCount r.world (stringOfInt64 channelID) = some (info.MessageCnt + 1) ∧
        (∀ q : Ref, q ≠ cache.Value → r.world.heap.deref q = w.heap.deref q) ∧
        (∀ j other, w.channelCacher.Cache.lookup j = some other →
          other.Value ≠ cache.Value → cachedRecord r.world j = cachedRecord w j)) := by
  refine ⟨fun err => rfl, ?_⟩
  intro res cache info hk hinfo hlo hhi
  have hstep := incrementMessage_present w _ cache info hk hinfo
  rw [wrapInt32_succ _ hlo (by omega)] at hstep
  have hrec : cachedRecord
      { heap := w.heap.store cache.Value { info with MessageCnt := info.MessageCnt + 1 },
        channelCacher := w.channelCacher } (stringOfInt64 channelID)
      = some { info with MessageCnt := info.MessageCnt + 1 } := by
    simp only [cachedRecord, hk]
    exact Heap.deref_store_same w.heap cache.Value info _ hinfo
  refine ⟨{ world :=
               { heap := w.heap.store cache.Value { info with MessageCnt := info.MessageCnt + 1 },
                 channelCacher := w.channelCacher },
             calls := [CacheCall.IncrementMessage (stringOfInt64 channelID)],
             ret := res.LastInsertId },
    by simp only [addMessage, hstep], rfl, rfl, rfl, hrec, ?_, ?_, ?_⟩
  · simp only [cachedCount, hrec, Option.map_some']
  · intro q hq
    exact Heap.deref_store_ne w.heap cache.Value q _ hq
  · intro j other hl hne
    simp only [cachedRecord, hl]
    exact Heap.deref_store_ne w.heap cache.Value other.Value _ hne

/-- C3 (witness): `addMessage` on channel 1 of `twoChannels`, with a failing
and with a successful insert. -/
theorem addMessage_insert_outcomes_witness :
    addMessage twoChannels (.error "deadlock") 1 7 "hello" =
        some { world := twoChannels, calls := [], ret := (0, some "deadlock") } ∧
    ∃ r : AddMessageResult,
      addMessage twoChannels (.ok { LastInsertId := (10001, none) }) 1 7 "hello" = some r ∧
      r.calls = [CacheCall.IncrementMessage (stringOfInt64 1)] ∧
      r.ret = (10001, none) ∧
      r.world.channelCacher = twoChannels.channelCacher ∧
      cachedRecord r.world (stringOfInt64 1) = some (channelInfo 1 6) ∧
      cachedCount r.world (stringOfInt64 1) = some 6 ∧
      (∀ q : Ref, q ≠ some 0 → r.world.heap.deref q = twoChannels.heap.deref q) ∧
      (∀ j other, twoChannels.channelCacher.Cache.lookup j = some other →
        other.Value ≠ some 0 → cachedRecord r.world j = cachedRecord twoChannels j) :=
  ⟨(addMessage_insert_outcomes twoChannels 1 7 "hello").1 "deadlock",
   (addMessage_insert_outcomes twoChannels 1 7 "hello").2 { LastInsertId := (10001, none) }
    { Value := some 0, Expired := 0 } (channelInfo 1 5)
    (by decide) (by decide) (by decide) (by decide)⟩

/-! ## The unread derivation -/

theorem lookup_foldl_insert_of_not_mem {β : Type} (f : β → Int) (a : Int) :
    ∀ (l : List β) (m0 : AList (fun _ : Int => β)), (∀ x ∈ l, f x ≠ a) →
      (l.foldl (fun m x => m.insert (f x) x) m0).lookup a = m0.lookup a := by
  intro l
  induction l with
  | nil => intro m0 _; rfl
  | cons y rest ih =>
    intro m0 hne
    rw [List.foldl_cons, ih _ (fun x hx => hne x (List.mem_cons_of_mem _ hx))]
    exact AList.lookup_insert_ne (fun e => hne y (List.mem_cons_self _ _) e.symm)

theorem lookup_foldl_insert_of_mem {β : Type} (f : β → Int) (a : Int) :
    ∀ (l : List β) (m0 : AList (fun _ : Int => β)), (∃ x ∈ l, f x = a) →
      ∃ x ∈ l, f x = a ∧ (l.foldl (fun m x => m.insert (f x) x) m0).lookup a = some x := by
  intro l
  induction l with
  | nil => intro m0 h; obtain ⟨x, hx, _⟩ := h; cases hx
  | cons y rest ih =>
    intro m0 _
    by_cases hrest : ∃ x ∈ rest, f x = a
    · obtain ⟨x, hx, hfx, hl⟩ := ih (m0.insert (f y) y) hrest
      exact ⟨x, List.mem_cons_of_mem _ hx, hfx, hl⟩
    · have hne : ∀ x ∈ rest, f x ≠ a := fun x hx e => hrest ⟨x, hx, e⟩
      have hy : f y = a := by
        rename_i hex
        obtain ⟨x, hx, hfx⟩ := hex
        rcases List.mem_cons.mp hx with rfl | hx
        · exact hfx
        · exact absurd hfx (hne x hx)
      refine ⟨y, List.mem_cons_self _ _, hy, ?_⟩
      rw [List.foldl_cons, lookup_foldl_insert_of_not_mem f a rest _ hne, ← hy]
      exact AList.lookup_insert _

/-- The loop of `fetchUnread` from any point on: it does not panic when every
remaining channel is in `channelMap`; it issues a count query only for a
remaining channel with a positive `lastID`; when it returns an answer, the
answer is the one built so far followed by one element per remaining channel,
each obeying `UnreadRule`; and it does return an answer when no count query
fails. -/
theorem fetchUnreadLoop_spec (channelMap : AList (fun _ : Int => ChannelInfo))
    (haveUnreadMap : AList (fun _ : Int => HaveRead)) (count : Int → Int → Except Error Int) :
    ∀ (rest : List ChannelInfo) (resp : List Unread) (queries : List (Int × Int)),
      (∀ ch ∈ rest, channelMap.lookup ch.ID ≠ none) →
      ∃ (res : Except Error (List Unread)) (queries1 : List (Int × Int)),
        fetchUnreadLoop channelMap haveUnreadMap count rest resp queries = some (res, queries1) ∧
        (∀ q ∈ queries1, q ∈ queries ∨
          (q.1 ∈ rest.map (fun ch => ch.ID) ∧ 0 < lastReadID haveUnreadMap q.1 ∧
            q.2 = lastReadID haveUnreadMap q.1)) ∧
        (∀ body, res = .ok body →
          ∃ tail, body = resp ++ tail ∧
            tail.map (fun u => u.channel_id) = rest.map (fun ch => ch.ID) ∧
            ∀ u ∈ tail, UnreadRule channelMap haveUnreadMap count u) ∧
        ((∀ a b, ∃ n, count a b = .ok n) → ∃ body, res = .ok body) := by
  intro rest
  induction rest with
  | nil =>
    intro resp queries _
    refine ⟨.ok resp, queries, rfl, fun q hq => Or.inl hq, ?_, fun _ => ⟨resp, rfl⟩⟩
    intro body hbody
    cases hbody
    exact ⟨[], by simp, rfl, fun u hu => by cases hu⟩
  | cons channel rest ih =>
    intro resp queries hmap
    have hmap1 : ∀ ch ∈ rest, channelMap.lookup ch.ID ≠ none :=
      fun ch hch => hmap ch (List.mem_cons_of_mem _ hch)
    have hlast : (match haveUnreadMap.lookup channel.ID with
        | some haveUnread => haveUnread.MessageID
        | none => 0) = lastReadID haveUnreadMap channel.ID := rfl
    by_cases hpos : 0 < lastReadID haveUnreadMap channel.ID
    · cases hc : count channel.ID (lastReadID haveUnreadMap channel.ID) with
      | error err =>
        refine ⟨.error err, queries ++ [(channel.ID, lastReadID haveUnreadMap channel.ID)],
          ?_, ?_, ?_, ?_⟩
        · simp only [fetchUnreadLoop, hlast, gt_iff_lt, hpos, if_true, hc]
        · intro q hq
          rcases List.mem_append.mp hq with hq | hq
          · exact Or.inl hq
          · rw [List.mem_singleton] at hq
            subst hq
            exact Or.inr ⟨by simp, hpos, rfl⟩
        · intro body hbody
          cases hbody
        · intro htotal
          obtain ⟨n, hn⟩ := htotal channel.ID (lastReadID haveUnreadMap channel.ID)
          rw [hn] at hc
          cases hc
      | ok cnt =>
        obtain ⟨res, queries1, hrun, hq1, hbody1, htot1⟩ :=
          ih (resp ++ [{ channel_id := channel.ID, unread := cnt }])
            (queries ++ [(channel.ID, lastReadID haveUnreadMap channel.ID)]) hmap1
        refine ⟨res, queries1, ?_, ?_, ?_, htot1⟩
        · simp only [fetchUnreadLoop, hlast, gt_iff_lt, hpos, if_true, hc]
          exact hrun
        · intro q hq
          rcases hq1 q hq with hq | ⟨hmem, hp, he⟩
          · rcases List.mem_append.mp hq with hq | hq
            · exact Or.inl hq
            · rw [List.mem_singleton] at hq
              subst hq
              exact Or.inr ⟨by simp, hpos, rfl⟩
          · exact Or.inr ⟨by simp only [List.map_cons]; exact List.mem_cons_of_mem _ hmem, hp, he⟩
        · intro body hbody
          obtain ⟨tail, hb, hids, hrule⟩ := hbody1 body hbody
          refine ⟨{ channel_id := channel.ID, unread := cnt } :: tail, by simp [hb], by simp [hids],
            ?_⟩
          intro u hu
          rcases List.mem_cons.mp hu with rfl | hu
          · exact ⟨fun _ => hc, fun hn => absurd hpos hn⟩
          · exact hrule u hu
    · cases hl : channelMap.lookup channel.ID with
      | none => exact absurd hl (hmap channel (List.mem_cons_self _ _))
      | some cached =>
        obtain ⟨res, queries1, hrun, hq1, hbody1, htot1⟩ :=
          ih (resp ++ [{ channel_id := channel.ID, unread := cached.MessageCnt }]) queries hmap1
        refine ⟨res, queries1, ?_, ?_, ?_, htot1⟩
        · simp only [fetchUnreadLoop, hlast, gt_iff_lt, hpos, if_false, hl]
          exact hrun
        · intro q hq
          rcases hq1 q hq with hq | ⟨hmem, hp, he⟩
          · exact Or.inl hq
          · exact Or.inr ⟨by simp only [List.map_cons]; exact List.mem_cons_of_mem _ hmem, hp, he⟩
        · intro body hbody
          obtain ⟨tail, hb, hids, hrule⟩ := hbody1 body hbody
          refine ⟨{ channel_id := channel.ID, unread := cached.MessageCnt } :: tail,
            by simp [hb], by simp [hids], ?_⟩
          intro u hu
          rcases List.mem_cons.mp hu with rfl | hu
          · exact ⟨fun hp => absurd hp hpos, fun _ => by simp [hl]⟩
          · exact hrule u hu

/-- The handler `fetchUnread` for a logged-in user whose `haveread` rows were
read: the facts of `fetchUnreadLoop_spec` for the whole channel list, with the
two maps the handler builds. -/
theorem fetchUnread_spec (userID : Int) (channels : List ChannelInfo)
    (queryHaveReads : Int → Except Error (List HaveRead)) (rows : List HaveRead)
    (count : Int → Int → Except Error Int)
    (huser : userID ≠ 0) (hrows : queryHaveReads userID = .ok rows) :
    ∃ (res : Except Error Response) (queries : List (Int × Int)),
      fetchUnread userID channels queryHaveReads count = some (res, queries) ∧
      (∀ q ∈ queries,
        0 < lastReadID (rows.foldl (fun m hu => m.insert hu.ChannelID hu) ∅) q.1) ∧
      (∀ body, res = .ok (.JSON 200 body) →
        body.map (fun u => u.channel_id) = channels.map (fun ch => ch.ID) ∧
        ∀ u ∈ body,
          UnreadRule (channels.foldl (fun m ch => m.insert ch.ID ch) ∅)
            (rows.foldl (fun m hu => m.insert hu.ChannelID hu) ∅) count u) ∧
      ((∀ a b, ∃ n, count a b = .ok n) → ∃ body, res = .ok (.JSON 200 body)) := by
  have hmap : ∀ ch ∈ channels,
      (channels.foldl (fun (m : AList (fun _ : Int => ChannelInfo)) ch => m.insert ch.ID ch)
        ∅).lookup ch.ID ≠ none := by
    intro ch hch
    obtain ⟨x, _, _, hl⟩ :=
      lookup_foldl_insert_of_mem (fun c : ChannelInfo => c.ID) ch.ID channels ∅ ⟨ch, hch, rfl⟩
    rw [hl]
    exact Option.some_ne_none x
  obtain ⟨res, queries, hrun, hq, hbody, htot⟩ :=
    fetchUnreadLoop_spec (channels.foldl (fun m ch => m.insert ch.ID ch) ∅)
      (rows.foldl (fun m hu => m.insert hu.ChannelID hu) ∅) count channels [] [] hmap
  cases res with
  | error err =>
    refine ⟨.error err, queries, ?_, ?_, ?_, ?_⟩
    · simp only [fetchUnread, huser, if_false, hrows, hrun]
    · intro q hqm
      rcases hq q hqm with h | ⟨_, hp, _⟩
      · cases h
      · exact hp
    · intro body hb
      cases hb
    · intro h
      obtain ⟨body, hb⟩ := htot h
      cases hb
  | ok resp =>
    refine ⟨.ok (.JSON 200 resp), queries, ?_, ?_, ?_, fun _ => ⟨resp, rfl⟩⟩
    · simp only [fetchUnread, huser, if_false, hrows, hrun]
    · intro q hqm
      rcases hq q hqm with h | ⟨_, hp, _⟩
      · cases h
      · exact hp
    · intro body hb
      cases hb
      obtain ⟨tail, ht, hids, hrule⟩ := hbody resp rfl
      rw [List.nil_append] at ht
      subst ht
      exact ⟨hids, hrule⟩

/-- C4 (counterexample): channel 1 has cached count 7, the user has a
watermark row for it with last read id 0, and the count query answers 3. The
unread count reported is the cached 7, not the 3 of the query. -/
theorem fetchUnread_watermark_zero_uses_cached_count :
    fetchUnread 1 [channelInfo 1 7]
      (fun _ => .ok [{ UserID := 1, ChannelID := 1, MessageID := 0,
                       UpdatedAt := 0, CreatedAt := 0 }])
      (fun _ _ => .ok 3)
    = some (.ok (.JSON 200 [{ channel_id := 1, unread := 7 }]), []) := by
  rfl

/-- C4 (amended): for a logged-in user, every channel list, every list of
watermark rows of the user and every count query that succeeds: the handler
answers with one element per channel, in the order of the list, and for each
channel that has a watermark row, with last read id `L > 0`, the unread count
reported for that channel is the result of the count query for that channel
and `L`, whatever the cached `MessageCnt` of the channel is. -/
theorem fetchUnread_watermark_uses_count_query (userID : Int) (channels : List ChannelInfo)
    (queryHaveReads : Int → Except Error (List HaveRead)) (rows : List HaveRead)
    (cnt : Int → Int → Int) (ch : ChannelInfo) (L : Int)
    (huser : userID ≠ 0) (hrows : queryHaveReads userID = .ok rows)
    (hch : ch ∈ channels)
    (hex : ∃ hu ∈ rows, hu.ChannelID = ch.ID)
    (hL : ∀ hu ∈ rows, hu.ChannelID = ch.ID → hu.MessageID = L)
    (hpos : 0 < L) :
    ∃ (body : List Unread) (queries : List (Int × Int)),
      fetchUnread userID channels queryHaveReads (fun a b => .ok (cnt a b))
        = some (.ok (.JSON 200 body), queries) ∧
      body.map (fun u => u.channel_id) = channels.map (fun c => c.ID) ∧
      (∃ u ∈ body, u.channel_id = ch.ID) ∧
      ∀ u ∈ body, u.channel_id = ch.ID → u.unread = cnt ch.ID L := by
  obtain ⟨res, queries, hrun, _, hbody, htot⟩ :=
    fetchUnread_spec userID channels queryHaveReads rows (fun a b => .ok (cnt a b)) huser hrows
  obtain ⟨body, hres⟩ := htot (fun a b => ⟨cnt a b, rfl⟩)
  subst hres
  obtain ⟨hids, hrule⟩ := hbody body rfl
  refine ⟨body, queries, hrun, hids, ?_, ?_⟩
  · have : ch.ID ∈ body.map (fun u => u.channel_id) := by
      rw [hids]
      exact List.mem_map.mpr ⟨ch, hch, rfl⟩
    obtain ⟨u, hu, he⟩ := List.mem_map.mp this
    exact ⟨u, hu, he⟩
  · intro u hu hid
    obtain ⟨x, hx, hxid, hl⟩ :=
      lookup_foldl_insert_of_mem (fun r : HaveRead => r.ChannelID) ch.ID rows ∅ hex
    have hlast : lastReadID (rows.foldl (fun m hu => m.insert hu.ChannelID hu) ∅) u.channel_id
        = L := by
      rw [hid]
      simp only [lastReadID, hl]
      exact hL x hx hxid
    have h1 := (hrule u hu).1 (by rw [hlast]; exact hpos)
    rw [hlast, hid] at h1
    exact (Except.ok.inj h1).symm

/-- C4 (witness): channel 1 has cached count 7 and a watermark row with last
read id 10; the count query answers 5 and 5 is reported. -/
theorem fetchUnread_watermark_uses_count_query_witness :
    ∃ (body : List Unread) (queries : List (Int × Int)),
      fetchUnread 1 [channelInfo 1 7, channelInfo 2 4]
        (fun _ => .ok [{ UserID := 1, ChannelID := 1, MessageID := 10,
                         UpdatedAt := 0, CreatedAt := 0 }])
        (fun a b => .ok ((fun _ _ => 5) a b))
        = some (.ok (.JSON 200 body), queries) ∧
      body.map (fun u => u.channel_id) = [channelInfo 1 7, channelInfo 2 4].map (fun c => c.ID) ∧
      (∃ u ∈ body, u.channel_id = (channelInfo 1 7).ID) ∧
      ∀ u ∈ body, u.channel_id = (channelInfo 1 7).ID → u.unread = 5 :=
  fetchUnread_watermark_uses_count_query 1 [channelInfo 1 7, channelInfo 2 4]
    (fun _ => .ok [{ UserID := 1, ChannelID := 1, MessageID := 10,
                     UpdatedAt := 0, CreatedAt := 0 }])
    [{ UserID := 1, ChannelID := 1, MessageID := 10, UpdatedAt := 0, CreatedAt := 0 }]
    (fun _ _ => 5) (channelInfo 1 7) 10 (by decide) rfl (by decide)
    ⟨_, List.mem_singleton.mpr rfl, rfl⟩
    (by intro hu hm _; rw [List.mem_singleton.mp hm])
    (by decide)

/-- C5: for a logged-in user, every channel list with pairwise distinct ids,
every list of watermark rows of the user and every count query (failing or
not): for a channel of the list for which the user has no watermark row, no
count query is issued, and when the handler answers, the unread count reported
for that channel is the cached `MessageCnt` of the channel; the handler does
answer when no count query fails. -/
theorem fetchUnread_no_watermark_uses_cached_count (userID : Int)
    (channels : List ChannelInfo) (queryHaveReads : Int → Except Error (List HaveRead))
    (rows : List HaveRead) (count : Int → Int → Except Error Int) (ch : ChannelInfo)
    (huser : userID ≠ 0) (hrows : queryHaveReads userID = .ok rows)
    (hdistinct : (channels.map (fun c => c.ID)).Nodup)
    (hch : ch ∈ channels)
    (hnone : ∀ hu ∈ rows, hu.ChannelID ≠ ch.ID) :
    ∃ (res : Except Error Response) (queries : List (Int × Int)),
      fetchUnread userID channels queryHaveReads count = some (res, queries) ∧
      (∀ q ∈ queries, q.1 ≠ ch.ID) ∧
      (∀ body, res = .ok (.JSON 200 body) →
        body.map (fun u => u.channel_id) = channels.map (fun c => c.ID) ∧
        (∃ u ∈ body, u.channel_id = ch.ID) ∧
        ∀ u ∈ body, u.channel_id = ch.ID → u.unread = ch.MessageCnt) ∧
      ((∀ a b, ∃ n, count a b = .ok n) → ∃ body, res = .ok (.JSON 200 body)) := by
  obtain ⟨res, queries, hrun, hq, hbody, htot⟩ :=
    fetchUnread_spec userID channels queryHaveReads rows count huser hrows
  have hlast : lastReadID (rows.foldl (fun m hu => m.insert hu.ChannelID hu) ∅) ch.ID = 0 := by
    simp only [lastReadID,
      lookup_foldl_insert_of_not_mem (fun r : HaveRead => r.ChannelID) ch.ID rows ∅ hnone,
      AList.lookup_empty]
  refine ⟨res, queries, hrun, ?_, ?_, htot⟩
  · intro q hqm he
    have := hq q hqm
    rw [he, hlast] at this
    exact absurd this (lt_irrefl 0)
  · intro body hb
    obtain ⟨hids, hrule⟩ := hbody body hb
    refine ⟨hids, ?_, ?_⟩
    · have : ch.ID ∈ body.map (fun u => u.channel_id) := by
        rw [hids]
        exact List.mem_map.mpr ⟨ch, hch, rfl⟩
      obtain ⟨u, hu, he⟩ := List.mem_map.mp this
      exact ⟨u, hu, he⟩
    · intro u hu hid
      obtain ⟨x, hx, hxid, hl⟩ :=
        lookup_foldl_insert_of_mem (fun c : ChannelInfo => c.ID) ch.ID channels ∅ ⟨ch, hch, rfl⟩
      have hxch : x = ch := List.inj_on_of_nodup_map hdistinct hx hch hxid
      subst hxch
      have h2 := (hrule u hu).2 (by rw [hid, hlast]; exact lt_irrefl 0)
      rw [hid, hl] at h2
      exact (Option.some.inj h2).symm

/-- C5 (witness): channel 2 has cached count 42 and no watermark row; 42 is
reported and no count query mentions channel 2. -/
theorem fetchUnread_no_watermark_uses_cached_count_witness :
    ∃ (res : Except Error Response) (queries : List (Int × Int)),
      fetchUnread 1 [channelInfo 1 7, channelInfo 2 42]
        (fun _ => .ok [{ UserID := 1, ChannelID := 1, MessageID := 10,
                         UpdatedAt := 0, CreatedAt := 0 }])
        (fun _ _ => .ok 5) = some (res, queries) ∧
      (∀ q ∈ queries, q.1 ≠ (channelInfo 2 42).ID) ∧
      (∀ body, res = .ok (.JSON 200 body) →
        body.map (fun u => u.channel_id)
          = [channelInfo 1 7, channelInfo 2 42].map (fun c => c.ID) ∧
        (∃ u ∈ body, u.channel_id = (channelInfo 2 42).ID) ∧
        ∀ u ∈ body, u.channel_id = (channelInfo 2 42).ID → u.unread = (channelInfo 2 42).MessageCnt) ∧
      ((∀ a b, ∃ n, (fun (_ _ : Int) => (Except.ok 5 : Except Error Int)) a b = .ok n) →
        ∃ body, res = .ok (.JSON 200 body)) :=
  fetchUnread_no_watermark_uses_cached_count 1 [channelInfo 1 7, channelInfo 2 42]
    (fun _ => .ok [{ UserID := 1, ChannelID := 1, MessageID := 10,
                     UpdatedAt := 0, CreatedAt := 0 }])
    [{ UserID := 1, ChannelID := 1, MessageID := 10, UpdatedAt := 0, CreatedAt := 0 }]
    (fun _ _ => .ok 5) (channelInfo 2 42) (by decide) rfl (by decide) (by decide)
    (by intro hu hm; rw [List.mem_singleton.mp hm]; decide)

/-! ## `Get` and `Set` of the generic cache -/

theorem runCalls_lookup_of_not_writes {T : Type} (k : String) :
    ∀ (calls : List (CacherCall T)) (c : Cacher T),
      (∀ call ∈ calls, call.writesKey k = false) →
      (c.runCalls calls).Cache.lookup k = c.Cache.lookup k := by
  intro calls
  induction calls with
  | nil => intro c _; rfl
  | cons call rest ih =>
    intro c hw
    have hrest : ∀ x ∈ rest, x.writesKey k = false :=
      fun x hx => hw x (List.mem_cons_of_mem _ hx)
    have hcall := hw call (List.mem_cons_self _ _)
    have hstep : (call.run c).Cache.lookup k = c.Cache.lookup k := by
      cases call with
      | Get key now => rfl
      | GetAll => rfl
      | Set key value ttl now =>
        have hne : k ≠ key := by
          intro e
          simp [CacherCall.writesKey, e] at hcall
        exact AList.lookup_insert_ne hne
      | Delete key =>
        have hne : k ≠ key := by
          intro e
          simp [CacherCall.writesKey, e] at hcall
        exact AList.lookup_erase_ne hne
      | Flush => simp [CacherCall.writesKey] at hcall
    show (Cacher.runCalls (call.run c) rest).Cache.lookup k = _
    rw [ih (call.run c) hrest, hstep]

/-- C6: `Get(k)` at clock reading `now` reports not found exactly when `k` is
not in the map or the expiry of its entry is not the zero instant and `now` is
not before it, and then the value returned is the zero value; otherwise it
returns the stored value with found. After `Set(k, v, ttl)` at `t0` with
`ttl > 0`, and any later calls none of which writes `k` (no `Set(k)`, no
`Delete(k)`, no `Flush`), `Get(k)` at `t` returns `(v, true)` when
`t < t0 + ttl` and not found when `t >= t0 + ttl`. -/
theorem get_found_iff_and_expiry {T : Type} [Inhabited T] (c : Cacher T) (k : String)
    (now : Time) :
    ((c.Get k now).2 = false ↔
      (c.Cache.lookup k = none ∨
        ∃ e, c.Cache.lookup k = some e ∧ e.Expired ≠ 0 ∧ ¬ now < e.Expired)) ∧
    ((c.Get k now).2 = false → (c.Get k now).1 = default) ∧
    (∀ e, c.Cache.lookup k = some e → (e.Expired = 0 ∨ now < e.Expired) →
      c.Get k now = (e.Value, true)) ∧
    (∀ (v : T) (ttl : Duration) (t0 : Time) (calls : List (CacherCall T)),
      0 < ttl → (∀ call ∈ calls, call.writesKey k = false) →
      ∀ t : Time,
        ((t : Int) < (t0 : Int) + ttl →
          ((c.Set k v ttl t0).runCalls calls).Get k t = (v, true)) ∧
        ((t0 : Int) + ttl ≤ (t : Int) →
          (((c.Set k v ttl t0).runCalls calls).Get k t).2 = false)) := by
  refine ⟨?_, ?_, ?_, ?_⟩
  · cases hl : c.Cache.lookup k with
    | none => simp [Cacher.Get, hl]
    | some e =>
      by_cases h0 : e.Expired = 0
      · simp [Cacher.Get, hl, Time.IsZero, Time.Before, h0]
      · by_cases hb : now < e.Expired
        · simp [Cacher.Get, hl, Time.IsZero, Time.Before, h0, hb]
        · simp [Cacher.Get, hl, Time.IsZero, Time.Before, h0, hb]
          exact not_lt.mp hb
  · cases hl : c.Cache.lookup k with
    | none => simp [Cacher.Get, hl]
    | some e =>
      by_cases hx : (Time.IsZero e.Expired || Time.Before now e.Expired) = true
      · simp [Cacher.Get, hl, hx]
      · simp [Cacher.Get, hl, hx]
  · intro e hl hlive
    have hx : (Time.IsZero e.Expired || Time.Before now e.Expired) = true := by
      rcases hlive with h | h
      · simp [Time.IsZero, h]
      · simp [Time.Before, h]
    simp [Cacher.Get, hl, hx]
  · intro v ttl t0 calls httl hw t
    have hl : ((c.Set k v ttl t0).runCalls calls).Cache.lookup k
        = some { Value := v, Expired := Time.Add t0 ttl } := by
      rw [runCalls_lookup_of_not_writes k calls _ hw]
      simp only [Cacher.Set, gt_iff_lt, httl, if_true]
      exact AList.lookup_insert _
    have hadd : ((Time.Add t0 ttl : Nat) : Int) = (t0 : Int) + ttl := Time.add_cast t0 ttl httl
    constructor
    · intro ht
      have hb : t < Time.Add t0 ttl := by
        have : ((t : Nat) : Int) < ((Time.Add t0 ttl : Nat) : Int) := by rw [hadd]; exact ht
        exact_mod_cast this
      simp [Cacher.Get, hl, Time.Before, hb]
    · intro ht
      have hle : Time.Add t0 ttl ≤ t := by
        have : ((Time.Add t0 ttl : Nat) : Int) ≤ ((t : Nat) : Int) := by rw [hadd]; exact ht
        exact_mod_cast this
      have hz : Time.Add t0 ttl ≠ 0 := by
        intro e
        rw [e] at hadd
        have h1 : (0 : Int) ≤ (t0 : Int) := Int.ofNat_nonneg t0
        have h2 : (0 : Int) < ttl := httl
        have h3 : ((0 : Nat) : Int) = (t0 : Int) + ttl := hadd
        omega
      have hb : ¬ t < Time.Add t0 ttl := not_lt.mpr hle
      simp [Cacher.Get, hl, Time.Before, Time.IsZero, hz, hb]

/-- C6 (witness): `Set("a", 7, 100)` at instant 1000 on the empty cache,
followed by a `Set` of another key: `Get("a")` finds 7 at 1000 and at 1099 and
finds nothing at 1100 and at 1150. -/
theorem get_found_iff_and_expiry_witness :
    ((({ Cache := ∅ } : Cacher Nat).Set "a" 7 100 1000).runCalls
        [CacherCall.Set "b" 8 0 1001, CacherCall.Get "a" 1002]).Get "a" 1099 = (7, true) ∧
    (((({ Cache := ∅ } : Cacher Nat).Set "a" 7 100 1000).runCalls
        [CacherCall.Set "b" 8 0 1001, CacherCall.Get "a" 1002]).Get "a" 1150).2 = false :=
  ⟨(((get_found_iff_and_expiry ({ Cache := ∅ } : Cacher Nat) "a" 0).2.2.2 7 100 1000
      [CacherCall.Set "b" 8 0 1001, CacherCall.Get "a" 1002] (by decide)
      (by decide) 1099).1 (by decide)),
   (((get_found_iff_and_expiry ({ Cache := ∅ } : Cacher Nat) "a" 0).2.2.2 7 100 1000
      [CacherCall.Set "b" 8 0 1001, CacherCall.Get "a" 1002] (by decide)
      (by decide) 1150).2 (by decide))⟩

/-- C7 (counterexample): `Set` with `ttl = -1` at instant 100, which is how the
handlers call it, stores the zero instant as expiry (no expiry), not
`now + ttl = 99`. -/
theorem set_negative_ttl_stores_no_expiry :
    (initCannelCacher.Set "a" (some 0) (-1) 100).Cache.lookup "a"
      = some { Value := some 0, Expired := 0 } ∧
    (-1 : Duration) ≠ 0 ∧
    ((0 : Time) : Int) ≠ ((100 : Time) : Int) + (-1 : Duration) := by
  decide

/-- C7 (amended): `Set(k, v, ttl)` at clock reading `now` replaces whatever was
stored under `k` by `v` and leaves every other key as it was; the stored entry
has no expiry (the zero instant) when `ttl <= 0`, and expiry exactly
`now + ttl` when `ttl > 0`. -/
theorem set_overwrites_and_expiry {T : Type} (c : Cacher T) (k : String) (v : T)
    (ttl : Duration) (now : Time) :
    (∃ e, (c.Set k v ttl now).Cache.lookup k = some e ∧ e.Value = v ∧
      (ttl ≤ 0 → e.Expired = 0 ∧ Time.IsZero e.Expired = true) ∧
      (0 < ttl → (e.Expired : Int) = (now : Int) + ttl)) ∧
    ∀ j, j ≠ k → (c.Set k v ttl now).Cache.lookup j = c.Cache.lookup j := by
  constructor
  · refine ⟨{ Value := v, Expired := if ttl > 0 then Time.Add now ttl else 0 },
      AList.lookup_insert _, rfl, ?_, ?_⟩
    · intro h
      have : ¬ ttl > 0 := not_lt.mpr h
      simp [this, Time.IsZero]
    · intro h
      simp only [gt_iff_lt, h, if_true]
      exact Time.add_cast now ttl h
  · intro j hj
    exact AList.lookup_insert_ne hj

/-- C7 (witness): on `twoChannels`, `Set` of the key of channel 1 with
`ttl = 50` at instant 100 stores expiry 150 and keeps the other keys. -/
theorem set_overwrites_and_expiry_witness :
    (∃ e, (twoChannels.channelCacher.Set (stringOfInt64 1) none 50 100).Cache.lookup
        (stringOfInt64 1) = some e ∧ e.Value = none ∧
      ((50 : Duration) ≤ 0 → e.Expired = 0 ∧ Time.IsZero e.Expired = true) ∧
      ((0 : Duration) < 50 → (e.Expired : Int) = ((100 : Time) : Int) + 50)) ∧
    ∀ j, j ≠ stringOfInt64 1 →
      (twoChannels.channelCacher.Set (stringOfInt64 1) none 50 100).Cache.lookup j
        = twoChannels.channelCacher.Cache.lookup j :=
  set_overwrites_and_expiry twoChannels.channelCacher (stringOfInt64 1) none 50 100

/-! ## Snapshots taken by `GetAll` -/

theorem getAll_mem_of_lookup {T : Type} (c : Cacher T) (k : String) (e : Entry T)
    (hk : c.Cache.lookup k = some e) : e.Value ∈ c.GetAll := by
  have hmem : (⟨k, e⟩ : Sigma (fun _ : String => Entry T)) ∈ c.Cache.entries :=
    AList.mem_lookup_iff.mp (by rw [hk]; exact rfl)
  exact List.mem_map.mpr ⟨⟨k, e⟩, hmem, rfl⟩

/-- C8 (counterexample): the sequence returned by `GetAll` on `twoChannels`
holds the pointers of channels 2 and 1; read through it, channel 1 has count 5.
After `IncrementMessage` of the key of channel 1, the same sequence reads
count 6 for channel 1. -/
theorem getAll_snapshot_observes_increment :
    twoChannels.channelCacher.GetAll = [some 1, some 0] ∧
    twoChannels.channelCacher.GetAll.map twoChannels.heap.deref
      = [some (channelInfo 2 7), some (channelInfo 1 5)] ∧
    (ChannelCacher.IncrementMessage twoChannels (stringOfInt64 1)).map
      (fun w1 => twoChannels.channelCacher.GetAll.map w1.heap.deref)
      = some [some (channelInfo 2 7), some (channelInfo 1 6)] := by
  decide

/-- C8 (amended): `GetAll` returns the stored pointers themselves, not copies
of the records. For a key `k` that is present with a record, the pointer
stored under `k` is in the sequence `GetAll` returns, and after a later
`IncrementMessage(k)` the record read through that pointer has the count of
the snapshot plus one (wrapped to `int32`), which differs from the count of
the snapshot; its other fields are as they were. -/
theorem getAll_shares_records_with_cache (w : World) (k : String) (cache : Entry Ref)
    (info : ChannelInfo)
    (hk : w.channelCacher.Cache.lookup k = some cache)
    (hinfo : w.heap.deref cache.Value = some info) :
    cache.Value ∈ w.channelCacher.GetAll ∧
    ∃ w1 : World, ChannelCacher.IncrementMessage w k = some w1 ∧
      w1.channelCacher.GetAll = w.channelCacher.GetAll ∧
      w1.heap.deref cache.Value
        = some { info with MessageCnt := wrapInt32 (info.MessageCnt + 1) } ∧
      wrapInt32 (info.MessageCnt + 1) ≠ info.MessageCnt ∧
      (info.MessageCnt < 2 ^ 31 - 1 → -(2 ^ 31) ≤ info.MessageCnt →
        wrapInt32 (info.MessageCnt + 1) = info.MessageCnt + 1) := by
  refine ⟨getAll_mem_of_lookup _ k cache hk, _, incrementMessage_present w k cache info hk hinfo,
    rfl, Heap.deref_store_same w.heap cache.Value info _ hinfo, ?_, ?_⟩
  · unfold wrapInt32
    omega
  · intro h1 h2
    exact wrapInt32_succ _ h2 (by omega)

/-- C8 (witness): channel 2 of `twoChannels`, count 7 in the snapshot and 8
after the increment. -/
theorem getAll_shares_records_with_cache_witness :
    (some 1 : Ref) ∈ twoChannels.channelCacher.GetAll ∧
    ∃ w1 : World, ChannelCacher.IncrementMessage twoChannels (stringOfInt64 2) = some w1 ∧
      w1.channelCacher.GetAll = twoChannels.channelCacher.GetAll ∧
      w1.heap.deref (some 1)
        = some { channelInfo 2 7 with MessageCnt := wrapInt32 ((channelInfo 2 7).MessageCnt + 1) } ∧
      wrapInt32 ((channelInfo 2 7).MessageCnt + 1) ≠ (channelInfo 2 7).MessageCnt ∧
      ((channelInfo 2 7).MessageCnt < 2 ^ 31 - 1 → -(2 ^ 31) ≤ (channelInfo 2 7).MessageCnt →
        wrapInt32 ((channelInfo 2 7).MessageCnt + 1) = (channelInfo 2 7).MessageCnt + 1) :=
  getAll_shares_records_with_cache twoChannels (stringOfInt64 2)
    { Value := some 1, Expired := 0 } (channelInfo 2 7) (by decide) (by decide)

/-! ## Reset of the channel cache -/

/-- C9 (counterexample): `twoChannels` holds two entries. A reset whose first
`UPDATE` fails returns the error and leaves the global cache empty; the same
holds for the cache part of `getInitialize`. -/
theorem getInitializeIsu3_failure_empties_cache :
    twoChannels.channelCacher.GetAll = [some 1, some 0] ∧
    (getInitializeIsu3 twoChannels (.error "lock wait timeout") (.ok ()) (.ok []) 0).map
      (fun r => (r.1.channelCacher.GetAll, r.2))
      = some ([], .error "lock wait timeout") ∧
    (getInitialize twoChannels (some (.ok ())) (.error "lock wait timeout") (.ok ()) (.ok []) 0
        (.ok ())).map (fun r => (r.1.channelCacher.GetAll, r.2))
      = some ([], .error "lock wait timeout") :=
  ⟨by decide, rfl, rfl⟩

/-- C9 (amended): when the first `UPDATE`, the second `UPDATE` or the
`SELECT` of the channels fails, `getInitializeIsu3` (and `getInitialize`, once
it has reached its cache part) returns that error, and the global channel
cache is then the fresh, empty cache installed at the start of the reset: the
entries held before are gone. The heap of records is not touched. -/
theorem reset_failure_leaves_fresh_cache (w : World) (exec1 exec2 : Except Error Unit)
    (select : Except Error (List ChannelInfo)) (now : Time) (err : Error)
    (isu3 : Except Error Unit)
    (hfail : exec1 = .error err ∨ (exec1 = .ok () ∧ exec2 = .error err) ∨
      (exec1 = .ok () ∧ exec2 = .ok () ∧ select = .error err)) :
    getInitializeIsu3 w exec1 exec2 select now
      = some ({ heap := w.heap, channelCacher := initCannelCacher }, .error err) ∧
    getInitialize w (some (.ok ())) exec1 exec2 select now isu3
      = some ({ heap := w.heap, channelCacher := initCannelCacher }, .error err) ∧
    initCannelCacher.GetAll = [] ∧
    ∀ key now1, (initCannelCacher.Get key now1).2 = false := by
  refine ⟨?_, ?_, rfl, fun key now1 => rfl⟩
  · rcases hfail with h | ⟨h1, h2⟩ | ⟨h1, h2, h3⟩
    · subst h; rfl
    · subst h1; subst h2; rfl
    · subst h1; subst h2; subst h3; rfl
  · rcases hfail with h | ⟨h1, h2⟩ | ⟨h1, h2, h3⟩
    · subst h; rfl
    · subst h1; subst h2; rfl
    · subst h1; subst h2; subst h3; rfl

/-- C9 (witness): the `SELECT` of the channels fails on `twoChannels`. -/
theorem reset_failure_leaves_fresh_cache_witness :
    getInitializeIsu3 twoChannels (.ok ()) (.ok ()) (.error "connection lost") 0
      = some ({ heap := twoChannels.heap, channelCacher := initCannelCacher },
          .error "connection lost") ∧
    getInitialize twoChannels (some (.ok ())) (.ok ()) (.ok ()) (.error "connection lost") 0
        (.ok ())
      = some ({ heap := twoChannels.heap, channelCacher := initCannelCacher },
          .error "connection lost") ∧
    initCannelCacher.GetAll = [] ∧
    ∀ key now1, (initCannelCacher.Get key now1).2 = false :=
  reset_failure_leaves_fresh_cache twoChannels (.ok ()) (.ok ()) (.error "connection lost") 0
    "connection lost" (.ok ()) (Or.inr (Or.inr ⟨rfl, rfl, rfl⟩))

/-! ## A successful reset -/

/-- What `allocAll` returns: the new heap is the old one followed by the rows,
and the pointers pair up with the rows, the `i`-th pointer being the address
right after the old heap plus `i`. -/
theorem Heap.allocAll_spec :
    ∀ (rows : List ChannelInfo) (h : Heap),
      (h.allocAll rows).1.recs = h.recs ++ rows ∧
      ∃ prs : List (Ref × ChannelInfo),
        prs.map Prod.fst = (h.allocAll rows).2 ∧ prs.map Prod.snd = rows ∧
        ∀ pr ∈ prs, ∃ i, pr.1 = some (h.recs.length + i) ∧ rows[i]? = some pr.2 := by
  intro rows
  induction rows with
  | nil =>
    intro h
    exact ⟨by simp [Heap.allocAll], [], rfl, rfl, fun pr hpr => by cases hpr⟩
  | cons v rest ih =>
    intro h
    obtain ⟨hrecs, prs, hfst, hsnd, hidx⟩ := ih (h.alloc v).1
    refine ⟨?_, (some h.recs.length, v) :: prs, ?_, ?_, ?_⟩
    · simp only [Heap.allocAll]
      rw [hrecs]
      simp [Heap.alloc]
    · simp only [Heap.allocAll, List.map_cons]
      rw [hfst]
      rfl
    · simp [hsnd]
    · intro pr hpr
      rcases List.mem_cons.mp hpr with rfl | hpr
      · exact ⟨0, rfl, by simp⟩
      · obtain ⟨i, hi1, hi2⟩ := hidx pr hpr
        refine ⟨i + 1, ?_, ?_⟩
        · rw [hi1]
          simp only [Heap.alloc, List.length_append, List.length_singleton]
          congr 1
          omega
        · simpa using hi2

/-- The loop of the reset on pointers that all have a record: it does not
panic and is the left fold of `Set` over the pointers with their records. -/
theorem setChannels_eq_foldl (h : Heap) (now : Time) :
    ∀ (prs : List (Ref × ChannelInfo)) (c : ChannelCacher),
      (∀ pr ∈ prs, h.deref pr.1 = some pr.2) →
      setChannels h now (prs.map Prod.fst) c =
        some (prs.foldl (fun acc pr => acc.Set (cacheKey pr.2) pr.1 (-1) now) c) := by
  intro prs
  induction prs with
  | nil => intro c _; rfl
  | cons pr rest ih =>
    intro c hd
    simp only [List.map_cons, setChannels, hd pr (List.mem_cons_self _ _), List.foldl_cons]
    exact ih _ (fun x hx => hd x (List.mem_cons_of_mem _ hx))

/-- The entries of the map after the fold of `Set` with `ttl = -1` over
records with pairwise distinct keys, none of which is in the map at the start:
one entry per record, without expiry, in front of the entries of the start. -/
theorem foldl_set_entries (now : Time) :
    ∀ (prs : List (Ref × ChannelInfo)) (c : ChannelCacher),
      (prs.map (fun pr => cacheKey pr.2)).Nodup →
      (∀ pr ∈ prs, cacheKey pr.2 ∉ c.Cache) →
      (prs.foldl (fun acc pr => acc.Set (cacheKey pr.2) pr.1 (-1) now) c).Cache.entries =
        prs.reverse.map
          (fun pr => (⟨cacheKey pr.2, { Value := pr.1, Expired := 0 }⟩ :
            Sigma (fun _ : String => Entry Ref))) ++ c.Cache.entries := by
  intro prs
  induction prs with
  | nil => intro c _ _; rfl
  | cons pr rest ih =>
    intro c hnodup hfresh
    have hnd := List.nodup_cons.mp hnodup
    have hset : (c.Set (cacheKey pr.2) pr.1 (-1) now).Cache
        = c.Cache.insert (cacheKey pr.2) { Value := pr.1, Expired := 0 } := by
      simp [Cacher.Set]
    have hfresh1 : ∀ x ∈ rest, cacheKey x.2 ∉ (c.Set (cacheKey pr.2) pr.1 (-1) now).Cache := by
      intro x hx hmem
      rw [hset, AList.mem_insert] at hmem
      rcases hmem with he | hm
      · exact hnd.1 (List.mem_map.mpr ⟨x, hx, he⟩)
      · exact hfresh x (List.mem_cons_of_mem _ hx) hm
    rw [List.foldl_cons, ih _ hnd.2 hfresh1, hset,
      AList.insert_entries_of_neg (hfresh pr (List.mem_cons_self _ _))]
    simp

/-- A reset whose three database statements succeed: it does not panic, it
returns no error, the rows are appended to the heap, and the new cache holds
one pointer per row and nothing else, none of them with an expiry. -/
theorem resetChannelCacher_success (w : World) (rows : List ChannelInfo) (now : Time)
    (hkeys : (rows.map cacheKey).Nodup) :
    ∃ w1 : World,
      resetChannelCacher w (.ok ()) (.ok ()) (.ok rows) now = some (w1, none) ∧
      w1.heap.recs = w.heap.recs ++ rows ∧
      List.Perm (w1.channelCacher.GetAll.map w1.heap.deref) (rows.map some) ∧
      (∀ key, w1.channelCacher.Cache.lookup key ≠ none → ∃ r ∈ rows, key = cacheKey r) ∧
      (∀ p ∈ w1.channelCacher.GetAll, w.heap.deref p = none) ∧
      (∀ r ∈ rows, ∀ t : Time, ∃ p,
        w1.channelCacher.Get (cacheKey r) t = (p, true) ∧ w1.heap.deref p = some r) := by
  obtain ⟨hrecs, prs, hfst, hsnd, hidx⟩ := Heap.allocAll_spec rows w.heap
  have hderef : ∀ pr ∈ prs, (w.heap.allocAll rows).1.deref pr.1 = some pr.2 := by
    intro pr hpr
    obtain ⟨i, hi1, hi2⟩ := hidx pr hpr
    rw [hi1]
    simp only [Heap.deref, hrecs]
    rw [List.getElem?_append_right (Nat.le_add_right _ _), Nat.add_sub_cancel_left]
    exact hi2
  have hold : ∀ pr ∈ prs, w.heap.deref pr.1 = none := by
    intro pr hpr
    obtain ⟨i, hi1, _⟩ := hidx pr hpr
    rw [hi1]
    simp only [Heap.deref]
    exact List.getElem?_eq_none (Nat.le_add_right _ _)
  have hkeys1 : (prs.map (fun pr => cacheKey pr.2)).Nodup := by
    have : prs.map (fun pr => cacheKey pr.2) = (prs.map Prod.snd).map cacheKey := by
      rw [List.map_map]
      rfl
    rw [this, hsnd]
    exact hkeys
  have hset := setChannels_eq_foldl (w.heap.allocAll rows).1 now prs initCannelCacher hderef
  rw [hfst] at hset
  have hentries := foldl_set_entries now prs initCannelCacher hkeys1
    (fun pr _ hmem => by
      have hnot : cacheKey pr.2 ∉ (∅ : AList (fun _ : String => Entry Ref)) :=
        AList.not_mem_empty _
      exact hnot hmem)
  have hnil : initCannelCacher.Cache.entries = [] := rfl
  rw [hnil, List.append_nil] at hentries
  have hall : (prs.foldl (fun acc pr => acc.Set (cacheKey pr.2) pr.1 (-1) now)
      initCannelCacher).GetAll = prs.reverse.map Prod.fst := by
    simp only [Cacher.GetAll, hentries, List.map_map]
    rfl
  have hlook : ∀ pr ∈ prs,
      (prs.foldl (fun acc pr => acc.Set (cacheKey pr.2) pr.1 (-1) now)
        initCannelCacher).Cache.lookup (cacheKey pr.2)
        = some { Value := pr.1, Expired := 0 } := by
    intro pr hpr
    apply AList.mem_lookup_iff.mpr
    rw [hentries]
    exact List.mem_map.mpr ⟨pr, List.mem_reverse.mpr hpr, rfl⟩
  refine ⟨{ heap := (w.heap.allocAll rows).1,
            channelCacher := prs.foldl (fun acc pr => acc.Set (cacheKey pr.2) pr.1 (-1) now)
              initCannelCacher }, ?_, hrecs, ?_, ?_, ?_, ?_⟩
  · simp only [resetChannelCacher, hset]
  · show List.Perm (List.map (w.heap.allocAll rows).1.deref _) _
    rw [hall, List.map_map]
    have hmap : List.map ((w.heap.allocAll rows).1.deref ∘ Prod.fst) prs.reverse
        = List.map (fun pr => some pr.2) prs.reverse := by
      apply List.map_congr_left
      intro pr hpr
      exact hderef pr (List.mem_reverse.mp hpr)
    have hrows : List.map (fun pr : Ref × ChannelInfo => some pr.2) prs.reverse
        = (rows.map some).reverse := by
      rw [← hsnd, List.map_map, List.map_reverse]
      rfl
    rw [hmap, hrows]
    exact List.reverse_perm _
  · intro key hne
    cases hl : (prs.foldl (fun acc pr => acc.Set (cacheKey pr.2) pr.1 (-1) now)
        initCannelCacher).Cache.lookup key with
    | none => exact absurd hl hne
    | some e =>
      have hmem : (⟨key, e⟩ : Sigma (fun _ : String => Entry Ref)) ∈
          (prs.foldl (fun acc pr => acc.Set (cacheKey pr.2) pr.1 (-1) now)
            initCannelCacher).Cache.entries :=
        AList.mem_lookup_iff.mp (by rw [hl]; exact rfl)
      rw [hentries] at hmem
      obtain ⟨pr, hpr, he⟩ := List.mem_map.mp hmem
      have hkey : cacheKey pr.2 = key := congrArg Sigma.fst he
      refine ⟨pr.2, ?_, hkey.symm⟩
      rw [← hsnd]
      exact List.mem_map.mpr ⟨pr, List.mem_reverse.mp hpr, rfl⟩
  · intro p hp
    rw [hall] at hp
    obtain ⟨pr, hpr, he⟩ := List.mem_map.mp hp
    rw [← he]
    exact hold pr (List.mem_reverse.mp hpr)
  · intro r hr t
    rw [← hsnd] at hr
    obtain ⟨pr, hpr, he⟩ := List.mem_map.mp hr
    subst he
    refine ⟨pr.1, ?_, hderef pr hpr⟩
    simp [Cacher.Get, hlook pr hpr, Time.IsZero]

/-- C10: for every prior state and every list of channel records whose cache
keys are pairwise distinct, a reset whose database statements succeed (in
`getInitializeIsu3`, and in `getInitialize`) answers 204 and leaves the cache
holding exactly the supplied records: the records read through `GetAll` are a
permutation of the list, every key of the cache is the key of a supplied
record, no stored pointer points to a record of the prior state, and for
every supplied record `r` and every instant, `Get` of the key of `r` finds a
pointer to `r`. -/
theorem reset_success_holds_exactly_records (w : World) (rows : List ChannelInfo)
    (now : Time) (hkeys : (rows.map cacheKey).Nodup) :
    ∃ w1 : World,
      getInitializeIsu3 w (.ok ()) (.ok ()) (.ok rows) now = some (w1, .ok (.Text 204 "")) ∧
      getInitialize w (some (.ok ())) (.ok ()) (.ok ()) (.ok rows) now (.ok ())
        = some (w1, .ok (.Text 204 "")) ∧
      List.Perm (w1.channelCacher.GetAll.map w1.heap.deref) (rows.map some) ∧
      w1.channelCacher.GetAll.length = rows.length ∧
      (∀ key, w1.channelCacher.Cache.lookup key ≠ none → ∃ r ∈ rows, key = cacheKey r) ∧
      (∀ p ∈ w1.channelCacher.GetAll, w.heap.deref p = none) ∧
      (∀ r ∈ rows, ∀ t : Time, ∃ p,
        w1.channelCacher.Get (cacheKey r) t = (p, true) ∧ w1.heap.deref p = some r) := by
  obtain ⟨w1, hrun, _, hperm, hkeysOnly, hfresh, hget⟩ :=
    resetChannelCacher_success w rows now hkeys
  refine ⟨w1, ?_, ?_, hperm, ?_, hkeysOnly, hfresh, hget⟩
  · simp only [getInitializeIsu3, hrun]
  · simp only [getInitialize, hrun]
  · have := hperm.length_eq
    simpa using this

/-- C10 (witness): a reset of `sharedRecord`, whose cache holds the keys `a`
and `b`, with the rows of channels 1 and 2. -/
theorem reset_success_holds_exactly_records_witness :
    ∃ w1 : World,
      getInitializeIsu3 sharedRecord (.ok ()) (.ok ()) (.ok [channelInfo 1 5, channelInfo 2 7]) 0
        = some (w1, .ok (.Text 204 "")) ∧
      getInitialize sharedRecord (some (.ok ())) (.ok ()) (.ok ())
          (.ok [channelInfo 1 5, channelInfo 2 7]) 0 (.ok ())
        = some (w1, .ok (.Text 204 "")) ∧
      List.Perm (w1.channelCacher.GetAll.map w1.heap.deref)
        ([channelInfo 1 5, channelInfo 2 7].map some) ∧
      w1.channelCacher.GetAll.length = [channelInfo 1 5, channelInfo 2 7].length ∧
      (∀ key, w1.channelCacher.Cache.lookup key ≠ none →
        ∃ r ∈ [channelInfo 1 5, channelInfo 2 7], key = cacheKey r) ∧
      (∀ p ∈ w1.channelCacher.GetAll, sharedRecord.heap.deref p = none) ∧
      (∀ r ∈ [channelInfo 1 5, channelInfo 2 7], ∀ t : Time, ∃ p,
        w1.channelCacher.Get (cacheKey r) t = (p, true) ∧ w1.heap.deref p = some r) :=
  reset_success_holds_exactly_records sharedRecord [channelInfo 1 5, channelInfo 2 7] 0
    (by decide)

/-! ## The sign of the cached count -/

theorem lookup_of_mem_getAll {T : Type} (c : Cacher T) (v : T) (hv : v ∈ c.GetAll) :
    ∃ k e, c.Cache.lookup k = some e ∧ e.Value = v := by
  obtain ⟨x, hx, hval⟩ := List.mem_map.mp hv
  refine ⟨x.1, x.2, ?_, hval⟩
  have hmem : x.2 ∈ c.Cache.lookup x.1 := AList.mem_lookup_iff.mpr hx
  exact hmem

/-- C11 (counterexample): in `fullChannel` the one stored record has count
`2^31 - 1`, which is not negative. After `IncrementMessage` of its key the
stored count is `-2^31`. -/
theorem incrementMessage_wraps_to_negative :
    cachedCount fullChannel (stringOfInt64 1) = some 2147483647 ∧
    (ChannelCacher.IncrementMessage fullChannel (stringOfInt64 1)).bind
      (fun w1 => cachedCount w1 (stringOfInt64 1)) = some (-2147483648) := by
  decide

theorem CountsNonneg.cachedCount_nonneg (w : World) (h : CountsNonneg w) (j : String) (n : Int)
    (hn : cachedCount w j = some n) : 0 ≤ n := by
  unfold cachedCount cachedRecord at hn
  cases hl : w.channelCacher.Cache.lookup j with
  | none => simp [hl] at hn
  | some cache =>
    cases hd : w.heap.deref cache.Value with
    | none => simp [hl, hd] at hn
    | some info =>
      simp only [hl, hd, Option.map_some', Option.some.injEq] at hn
      rw [← hn]
      exact h j cache info hl hd

theorem CountsNonneg.getAll_nonneg (w : World) (h : CountsNonneg w) (p : Ref)
    (hp : p ∈ w.channelCacher.GetAll) (info : ChannelInfo) (hd : w.heap.deref p = some info) :
    0 ≤ info.MessageCnt := by
  obtain ⟨k, e, hl, hv⟩ := lookup_of_mem_getAll w.channelCacher p hp
  subst hv
  exact h k e info hl hd

/-- C11 (amended): in a state in which every stored record has
`MessageCnt >= 0`, and for a key `k` whose record (if `k` is present) has a
count below the largest `int32`, `IncrementMessage(k)` leaves a state in which
every stored record still has `MessageCnt >= 0`; so the count read under any
key, and the count of every record read through `GetAll` (which is what the
unread derivation takes as the cached count), is not negative. The call
returns normally whenever `k` is absent or its pointer has a record. -/
theorem incrementMessage_keeps_counts_nonneg (w : World) (k : String)
    (hpos : CountsNonneg w)
    (hroom : ∀ cache info, w.channelCacher.Cache.lookup k = some cache →
      w.heap.deref cache.Value = some info → info.MessageCnt < 2 ^ 31 - 1) :
    (∀ w1, ChannelCacher.IncrementMessage w k = some w1 →
      CountsNonneg w1 ∧
      (∀ j n, cachedCount w1 j = some n → 0 ≤ n) ∧
      (∀ p ∈ w1.channelCacher.GetAll, ∀ info, w1.heap.deref p = some info →
        0 ≤ info.MessageCnt)) ∧
    ((w.channelCacher.Cache.lookup k = none ∨
        ∃ cache info, w.channelCacher.Cache.lookup k = some cache ∧
          w.heap.deref cache.Value = some info) →
      ∃ w1, ChannelCacher.IncrementMessage w k = some w1) := by
  have hinv : ∀ w1, ChannelCacher.IncrementMessage w k = some w1 → CountsNonneg w1 := by
    intro w1 hrun
    cases hl : w.channelCacher.Cache.lookup k with
    | none =>
      rw [incrementMessage_absent w k hl] at hrun
      cases hrun
      exact hpos
    | some cache =>
      cases hd : w.heap.deref cache.Value with
      | none => simp [ChannelCacher.IncrementMessage, hl, hd] at hrun
      | some info =>
        have h0 : 0 ≤ info.MessageCnt := hpos k cache info hl hd
        have h1 : info.MessageCnt < 2 ^ 31 - 1 := hroom cache info hl hd
        rw [incrementMessage_present w k cache info hl hd,
          wrapInt32_succ _ (by omega) (by omega)] at hrun
        cases hrun
        intro j other info1 hlj hdj
        by_cases hsame : other.Value = cache.Value
        · have hnew := Heap.deref_store_same w.heap cache.Value info
            { info with MessageCnt := info.MessageCnt + 1 } hd
          simp only at hdj
          rw [hsame, hnew] at hdj
          cases hdj
          show 0 ≤ info.MessageCnt + 1
          omega
        · simp only at hdj
          rw [Heap.deref_store_ne w.heap cache.Value other.Value _ hsame] at hdj
          exact hpos j other info1 hlj hdj
  refine ⟨fun w1 hrun => ⟨hinv w1 hrun, ?_, ?_⟩, ?_⟩
  · exact fun j n hn => CountsNonneg.cachedCount_nonneg w1 (hinv w1 hrun) j n hn
  · exact fun p hp info hd => CountsNonneg.getAll_nonneg w1 (hinv w1 hrun) p hp info hd
  · intro hok
    rcases hok with hl | ⟨cache, info, hl, hd⟩
    · exact ⟨w, incrementMessage_absent w k hl⟩
    · exact ⟨_, incrementMessage_present w k cache info hl hd⟩

theorem twoChannels_lookup (j : String) (cache : Entry Ref)
    (hl : twoChannels.channelCacher.Cache.lookup j = some cache) :
    (j = stringOfInt64 1 ∧ cache = { Value := some 0, Expired := 0 }) ∨
    (j = stringOfInt64 2 ∧ cache = { Value := some 1, Expired := 0 }) := by
  by_cases h2 : j = stringOfInt64 2
  · subst h2
    exact Or.inr ⟨rfl, Option.some.inj (hl.symm.trans (by decide))⟩
  · by_cases h1 : j = stringOfInt64 1
    · subst h1
      exact Or.inl ⟨rfl, Option.some.inj (hl.symm.trans (by decide))⟩
    · exfalso
      simp only [twoChannels, Cacher.Set, initCannelCacher] at hl
      rw [AList.lookup_insert_ne h2, AList.lookup_insert_ne h1, AList.lookup_empty] at hl
      cases hl

theorem twoChannels_countsNonneg : CountsNonneg twoChannels := by
  intro j cache info hl hd
  rcases twoChannels_lookup j cache hl with ⟨_, hc⟩ | ⟨_, hc⟩
  · subst hc
    have : info = channelInfo 1 5 := Option.some.inj (hd.symm.trans (by decide))
    subst this
    decide
  · subst hc
    have : info = channelInfo 2 7 := Option.some.inj (hd.symm.trans (by decide))
    subst this
    decide

/-- C11 (witness): `twoChannels` has counts 5 and 7; `IncrementMessage` of the
key of channel 1 returns a state in which no stored count is negative. -/
theorem incrementMessage_keeps_counts_nonneg_witness :
    ∃ w1, ChannelCacher.IncrementMessage twoChannels (stringOfInt64 1) = some w1 ∧
      CountsNonneg w1 ∧
      (∀ j n, cachedCount w1 j = some n → 0 ≤ n) ∧
      (∀ p ∈ w1.channelCacher.GetAll, ∀ info, w1.heap.deref p = some info →
        0 ≤ info.MessageCnt) := by
  have hroom : ∀ cache info,
      twoChannels.channelCacher.Cache.lookup (stringOfInt64 1) = some cache →
      twoChannels.heap.deref cache.Value = some info → info.MessageCnt < 2 ^ 31 - 1 := by
    intro cache info hl hd
    rcases twoChannels_lookup _ cache hl with ⟨_, hc⟩ | ⟨h2, _⟩
    · subst hc
      have : info = channelInfo 1 5 := Option.some.inj (hd.symm.trans (by decide))
      subst this
      decide
    · exact absurd h2 (by decide)
  have key := incrementMessage_keeps_counts_nonneg twoChannels (stringOfInt64 1)
    twoChannels_countsNonneg hroom
  obtain ⟨w1, hrun⟩ := key.2
    (Or.inr ⟨{ Value := some 0, Expired := 0 }, channelInfo 1 5, by decide, by decide⟩)
  exact ⟨w1, hrun, key.1 w1 hrun⟩

/-! ## Cache keys -/

theorem char_toNat_ofNat_of_valid (n : Nat) (h : n.isValidChar) : (Char.ofNat n).toNat = n := by
  unfold Char.ofNat
  rw [dif_pos h]
  rfl

theorem string_singleton_inj (c d : Char) (h : String.singleton c = String.singleton d) :
    c = d := by
  have := congrArg String.data h
  simpa [String.singleton] using this

/-- On Unicode scalar values the conversion `string(i)` is injective: two
distinct ids in that range get distinct keys. -/
theorem stringOfInt64_ne_of_scalar (a b : Int) (ha : IsScalarValue a) (hb : IsScalarValue b)
    (hab : a ≠ b) : stringOfInt64 a ≠ stringOfInt64 b := by
  intro h
  have ha1 : (0 ≤ a ∧ a < 0xD800) ∨ (0xE000 ≤ a ∧ a ≤ 0x10FFFF) := ha
  have hb1 : (0 ≤ b ∧ b < 0xD800) ∨ (0xE000 ≤ b ∧ b ≤ 0x10FFFF) := hb
  unfold stringOfInt64 at h
  rw [if_pos ha1, if_pos hb1] at h
  have hchar := string_singleton_inj _ _ h
  have hva : a.toNat.isValidChar := by
    unfold Nat.isValidChar
    omega
  have hvb : b.toNat.isValidChar := by
    unfold Nat.isValidChar
    omega
  have hnat : a.toNat = b.toNat := by
    rw [← char_toNat_ofNat_of_valid _ hva, ← char_toNat_ofNat_of_valid _ hvb, hchar]
  apply hab
  omega

/-- Every integer that is not a Unicode scalar value (a negative id, a
surrogate, an id above U+10FFFF) gets the key of id 65533, the text U+FFFD. -/
theorem stringOfInt64_of_not_scalar (a : Int) (ha : ¬ IsScalarValue a) :
    stringOfInt64 a = stringOfInt64 0xFFFD := by
  have ha1 : ¬ ((0 ≤ a ∧ a < 0xD800) ∨ (0xE000 ≤ a ∧ a ≤ 0x10FFFF)) := ha
  unfold stringOfInt64
  rw [if_neg ha1]
  decide

/-- C12 (the code at the failing input): the distinct channel ids 55296 and
55297 get the same key. A reset that loads one channel for each id leaves a
single cache entry, the one of channel 55297; `Get` with the key of channel
55296 finds the record of channel 55297; and a message posted to channel
55296 is counted on the record of channel 55297. -/
theorem stringOfInt64_distinct_ids_share_key :
    (55296 : Int) ≠ 55297 ∧
    stringOfInt64 55296 = stringOfInt64 55297 ∧
    (getInitializeIsu3 emptyWorld (.ok ()) (.ok ())
        (.ok [channelInfo 55296 3, channelInfo 55297 9]) 0).map
      (fun r => r.1.channelCacher.GetAll.map r.1.heap.deref)
      = some [some (channelInfo 55297 9)] ∧
    (getInitializeIsu3 emptyWorld (.ok ()) (.ok ())
        (.ok [channelInfo 55296 3, channelInfo 55297 9]) 0).map
      (fun r => r.1.heap.deref (r.1.channelCacher.Get (stringOfInt64 55296) 0).1)
      = some (some (channelInfo 55297 9)) ∧
    ((getInitializeIsu3 emptyWorld (.ok ()) (.ok ())
        (.ok [channelInfo 55296 3, channelInfo 55297 9]) 0).bind
      (fun r => addMessage r.1 (.ok { LastInsertId := (10001, none) }) 55296 1 "hello")).map
      (fun r => r.world.channelCacher.GetAll.map r.world.heap.deref)
      = some [some (channelInfo 55297 10)] := by
  decide

/-! ## History pages -/

theorem maxPageOf_eq (cnt : Int) (h0 : 0 ≤ cnt) (hhi : cnt ≤ 2 ^ 31 - 20) :
    maxPageOf cnt = if (cnt + 19) / 20 = 0 then 1 else (cnt + 19) / 20 := by
  have hwrap : wrapInt32 (wrapInt32 (cnt + 20) - 1) = cnt + 19 := by
    unfold wrapInt32
    omega
  have hdiv : Int.tdiv (cnt + 19) 20 = (cnt + 19) / 20 :=
    Int.tdiv_eq_ediv (by omega) (by omega)
  simp only [maxPageOf, hwrap, hdiv]

theorem ceil_div_twenty (cnt : Int) : ⌈(cnt : ℚ) / 20⌉ = (cnt + 19) / 20 := by
  rw [Int.ceil_eq_iff]
  have h1 : 20 * ((cnt + 19) / 20) - 20 < cnt := by omega
  have h2 : cnt ≤ 20 * ((cnt + 19) / 20) := by omega
  have h1q : (20 : ℚ) * (((cnt + 19) / 20 : Int) : ℚ) - 20 < (cnt : ℚ) := by exact_mod_cast h1
  have h2q : (cnt : ℚ) ≤ (20 : ℚ) * (((cnt + 19) / 20 : Int) : ℚ) := by exact_mod_cast h2
  constructor
  · rw [lt_div_iff₀ (by norm_num : (0 : ℚ) < 20)]
    linarith
  · rw [div_le_iff₀ (by norm_num : (0 : ℚ) < 20)]
    linarith

/-- The handler `getHistory` once the channel id is positive, the user is
logged in, the page is `p >= 1` and the count was read: bad request when
`p > maxPage`, and the message query and the rendering otherwise. -/
theorem getHistory_of_page (w : World) (chID user : Int) (loginErr : Option Error)
    (pageParam : Option (Except Error Int)) (now : Time) (messages : Except Error Unit)
    (cnt p : Int) (hch : 0 < chID) (hcnt : historyCnt w chID now = some cnt) (hp : 1 ≤ p)
    (hpage : pageParam = some (.ok p) ∨ (pageParam = none ∧ p = 1)) :
    getHistory w (.ok chID) (some user) loginErr pageParam now messages =
      if p > maxPageOf cnt then some .BadRequest
      else
        match messages with
        | .error err => some (.Return (some err))
        | .ok _ => some (.Render chID (maxPageOf cnt) p (wrapInt32 ((p - 1) * 20))) := by
  have hch1 : ¬ chID ≤ 0 := not_le.mpr hch
  have hp1 : ¬ p < 1 := not_lt.mpr hp
  rcases hpage with h | ⟨h, h1⟩
  · subst h
    simp only [getHistory, hch1, if_false, hp1, hcnt]
  · subst h
    subst h1
    simp only [getHistory, hch1, if_false, hcnt]

/-- The `cnt` of `getHistory` when the key of the channel holds an entry that
is live at `now` and whose pointer has a record: the `MessageCnt` of that
record. -/
theorem historyCnt_of_cached (w : World) (chID : Int) (now : Time) (cache : Entry Ref)
    (info : ChannelInfo)
    (hl : w.channelCacher.Cache.lookup (stringOfInt64 chID) = some cache)
    (hlive : cache.Expired = 0 ∨ now < cache.Expired)
    (hd : w.heap.deref cache.Value = some info) :
    historyCnt w chID now = some info.MessageCnt := by
  have hx : (Time.IsZero cache.Expired || Time.Before now cache.Expired) = true := by
    rcases hlive with h | h
    · simp [Time.IsZero, h]
    · simp [Time.Before, h]
  simp [historyCnt, Cacher.Get, hl, hx, hd]

/-- The `cnt` of `getHistory` when the key of the channel is not in the cache,
or holds an entry that has expired at `now`: 0. -/
theorem historyCnt_of_not_found (w : World) (chID : Int) (now : Time)
    (hmiss : w.channelCacher.Cache.lookup (stringOfInt64 chID) = none ∨
      ∃ cache, w.channelCacher.Cache.lookup (stringOfInt64 chID) = some cache ∧
        cache.Expired ≠ 0 ∧ ¬ now < cache.Expired) :
    historyCnt w chID now = some 0 := by
  rcases hmiss with hl | ⟨cache, hl, hz, hb⟩
  · simp [historyCnt, Cacher.Get, hl]
  · simp [historyCnt, Cacher.Get, hl, Time.IsZero, Time.Before, hz, hb]

/-- C13: in `getHistory`, for a positive channel id and a logged-in user, let
`cnt` be the cached message count of the channel: the `MessageCnt` of the
record behind the entry that `Get(string(chID))` finds, and 0 when the key is
not in the cache (or its entry has expired). For `0 <= cnt <= 2^31 - 20` the
handler reads exactly that `cnt`, the `maxPage` it computes is
`max(1, ceil(cnt / 20))`, and a requested page `p >= 1` is answered with bad
request exactly when `p > max(1, ceil(cnt / 20))`; otherwise the handler goes
on to the message query and renders with `MaxPage = max(1, ceil(cnt / 20))`.
One above the bound, at `cnt = 2^31 - 19`, the `int32` sum wraps and the
computed `maxPage` is negative. -/
theorem getHistory_maxPage_and_page_check (w : World) (chID user : Int)
    (loginErr : Option Error) (pageParam : Option (Except Error Int)) (now : Time)
    (messages : Except Error Unit) (cnt p : Int)
    (hch : 0 < chID)
    (hcnt :
      (∃ cache info, w.channelCacher.Cache.lookup (stringOfInt64 chID) = some cache ∧
        (cache.Expired = 0 ∨ now < cache.Expired) ∧
        w.heap.deref cache.Value = some info ∧ info.MessageCnt = cnt) ∨
      ((w.channelCacher.Cache.lookup (stringOfInt64 chID) = none ∨
          ∃ cache, w.channelCacher.Cache.lookup (stringOfInt64 chID) = some cache ∧
            cache.Expired ≠ 0 ∧ ¬ now < cache.Expired) ∧ cnt = 0))
    (h0 : 0 ≤ cnt) (hhi : cnt ≤ 2 ^ 31 - 20) (hp : 1 ≤ p)
    (hpage : pageParam = some (.ok p) ∨ (pageParam = none ∧ p = 1)) :
    historyCnt w chID now = some cnt ∧
    maxPageOf cnt = max 1 ⌈(cnt : ℚ) / 20⌉ ∧
    (getHistory w (.ok chID) (some user) loginErr pageParam now messages = some .BadRequest ↔
      p > max 1 ⌈(cnt : ℚ) / 20⌉) ∧
    (p ≤ max 1 ⌈(cnt : ℚ) / 20⌉ →
      getHistory w (.ok chID) (some user) loginErr pageParam now messages =
        match messages with
        | .error err => some (.Return (some err))
        | .ok _ =>
          some (.Render chID (max 1 ⌈(cnt : ℚ) / 20⌉) p (wrapInt32 ((p - 1) * 20)))) ∧
    maxPageOf (2 ^ 31 - 19) = -107374182 := by
  have hread : historyCnt w chID now = some cnt := by
    rcases hcnt with ⟨cache, info, hl, hlive, hd, he⟩ | ⟨hmiss, he⟩
    · rw [← he]
      exact historyCnt_of_cached w chID now cache info hl hlive hd
    · rw [he]
      exact historyCnt_of_not_found w chID now hmiss
  have hrun := getHistory_of_page w chID user loginErr pageParam now messages cnt p hch hread hp
    hpage
  have hmax : maxPageOf cnt = max 1 ⌈(cnt : ℚ) / 20⌉ := by
    rw [maxPageOf_eq cnt h0 hhi, ceil_div_twenty]
    by_cases hz : (cnt + 19) / 20 = 0
    · rw [if_pos hz, hz]
      rfl
    · rw [if_neg hz]
      have hge : 1 ≤ (cnt + 19) / 20 := by omega
      exact (max_eq_right hge).symm
  rw [hmax] at hrun
  refine ⟨hread, hmax, ?_, ?_, by decide⟩
  · rw [hrun]
    by_cases hgt : p > max 1 ⌈(cnt : ℚ) / 20⌉
    · simp only [hgt, if_true]
    · rw [if_neg hgt]
      cases messages with
      | error err => simp [hgt]
      | ok u => simp [hgt]
  · intro hle
    rw [hrun, if_neg (not_lt.mpr hle)]

/-- C13 (witness): channel 3 of `busyChannel` has 41 messages, so `maxPage` is
3: the handler reads 41, renders page 2 with `MaxPage` 3 and offset 20, and
answers page 4 with bad request. -/
theorem getHistory_maxPage_and_page_check_witness :
    historyCnt busyChannel 3 0 = some 41 ∧
    max 1 ⌈((41 : Int) : ℚ) / 20⌉ = 3 ∧
    getHistory busyChannel (.ok 3) (some 7) none (some (.ok 2)) 0 (.ok ())
      = some (.Render 3 3 2 20) ∧
    getHistory busyChannel (.ok 3) (some 7) none (some (.ok 4)) 0 (.ok ())
      = some .BadRequest := by
  have hcached : (∃ cache info,
        busyChannel.channelCacher.Cache.lookup (stringOfInt64 3) = some cache ∧
        (cache.Expired = 0 ∨ (0 : Time) < cache.Expired) ∧
        busyChannel.heap.deref cache.Value = some info ∧ info.MessageCnt = 41) ∨
      ((busyChannel.channelCacher.Cache.lookup (stringOfInt64 3) = none ∨
          ∃ cache, busyChannel.channelCacher.Cache.lookup (stringOfInt64 3) = some cache ∧
            cache.Expired ≠ 0 ∧ ¬ (0 : Time) < cache.Expired) ∧ (41 : Int) = 0) :=
    Or.inl ⟨{ Value := some 0, Expired := 0 }, channelInfo 3 41, by decide, Or.inl rfl,
      by decide, rfl⟩
  have page2 := getHistory_maxPage_and_page_check busyChannel 3 7 none (some (.ok 2)) 0 (.ok ())
    41 2 (by decide) hcached (by decide) (by decide) (by decide) (Or.inl rfl)
  have page4 := getHistory_maxPage_and_page_check busyChannel 3 7 none (some (.ok 4)) 0 (.ok ())
    41 4 (by decide) hcached (by decide) (by decide) (by decide) (Or.inl rfl)
  have hthree : max 1 ⌈((41 : Int) : ℚ) / 20⌉ = 3 := by
    rw [← page2.2.1]
    decide
  refine ⟨page2.1, hthree, ?_, ?_⟩
  · have h := page2.2.2.2.1 (by rw [hthree]; decide)
    rw [hthree] at h
    exact h
  · exact page4.2.2.1.mpr (by rw [hthree]; decide)

end Isubata
